import Mathlib

/-!
Verification of the flow-diagram synthesis and repair pipeline of the
Bianca-Fixed repository (`src/agents/flowchart_agent.py`).  Strings are
modelled as `List Char`; each Python helper of the agent is translated to
an executable Lean function of the same name, with every `re.sub` call
replaced by an explicit scanner implementing the same matching semantics.
-/

namespace Flowchart

/-- Strings are modelled as lists of characters. -/
abbrev Str := List Char

/-- Coerce a Lean string literal to the model representation. -/
def str (s : String) : Str := s.data

/-- Python `str.strip()` whitespace set (ASCII part). -/
def isWsChar (c : Char) : Bool :=
  c = ' ' || c = '\t' || c = '\n' || c = '\r' || c = '\x0b' || c = '\x0c'

/-- Characters matched by the regex class `[a-zA-Z0-9_]` (`\w` on ASCII input). -/
def isWordChar (c : Char) : Bool :=
  ('a' ≤ c && c ≤ 'z') || ('A' ≤ c && c ≤ 'Z') || ('0' ≤ c && c ≤ '9') || c = '_'

/-- Python `s.split('\n')`. -/
def splitLines : Str → List Str
  | [] => [[]]
  | c :: t =>
    if c = '\n' then [] :: splitLines t
    else
      match splitLines t with
      | [] => [[c]]
      | l :: ls => (c :: l) :: ls

/-- Python `'\n'.join(lines)`. -/
def joinLines (ls : List Str) : Str := List.intercalate ['\n'] ls

/-- Python `s.lstrip()`. -/
def lstripWs (s : Str) : Str := s.dropWhile isWsChar

/-- Python `s.rstrip()`. -/
def rstripWs (s : Str) : Str := (s.reverse.dropWhile isWsChar).reverse

/-- Python `s.strip()`. -/
def stripWs (s : Str) : Str := rstripWs (lstripWs s)

/-- Python `s.startswith(p)`. -/
def startsW (s p : Str) : Bool := p.isPrefixOf s

/-- Python `p in s` (substring containment) for non-empty `p`. -/
def containsStr (s p : Str) : Bool :=
  match s with
  | [] => p.isEmpty
  | _ :: t => p.isPrefixOf s || containsStr t p

/-- Python `s.find(p)`: index of leftmost occurrence. -/
def findSubIdx (s p : Str) : Option Nat :=
  match s with
  | [] => if p.isEmpty then some 0 else none
  | _ :: t => if p.isPrefixOf s then some 0 else (findSubIdx t p).map (· + 1)

/-- Python `s.split(sep)` for non-empty `sep` (fuel-indexed worker). -/
def splitOnStr_go (sep : Str) : Nat → Str → List Str
  | 0, s => [s]
  | fuel + 1, s =>
    if sep = [] then [s]
    else
      match findSubIdx s sep with
      | none => [s]
      | some i => s.take i :: splitOnStr_go sep fuel (s.drop (i + sep.length))

/-- Python `s.split(sep)` for non-empty `sep`. -/
def splitOnStr (s sep : Str) : List Str := splitOnStr_go sep (s.length + 1) s

/-- Python `s.split(sep, 1)` for non-empty `sep`. -/
def splitOnce (s sep : Str) : List Str :=
  match findSubIdx s sep with
  | none => [s]
  | some i => [s.take i, s.drop (i + sep.length)]

/-- Python `s.replace('\t', '    ')`. -/
def expandTabs : Str → Str
  | [] => []
  | c :: t => if c = '\t' then ' ' :: ' ' :: ' ' :: ' ' :: expandTabs t else c :: expandTabs t

/-- Python `s.lower()` (ASCII). -/
def toLowerStr (s : Str) : Str := s.map Char.toLower

/-- `n` spaces. -/
def spaces (n : Nat) : Str := List.replicate n ' '

/-- Number of leading space characters of a line. -/
def leadingSpaces (s : Str) : Nat := (s.takeWhile (fun c => c = ' ')).length

/-!  ## `FlowchartAgent._validate_mermaid`  -/

/-- `_validate_mermaid` from `flowchart_agent.py` (lines 331-344): the heuristic
validator deciding whether a diagram is structurally acceptable. -/
def validate_mermaid (code : Str) : Bool :=
  if code.isEmpty then false
  else if (stripWs code).length < 10 then false
  else if !startsW (stripWs code) (str "flowchart") then false
  else if !containsStr code (str "-->") then false
  else
    let lines := (splitLines code).filter
      (fun l => !(stripWs l).isEmpty && !startsW (stripWs l) (str "%%"))
    if lines.length < 3 then false
    else
      let node_count := lines.countP (fun l =>
        containsStr l (str "-->") || (l.contains '[' && l.contains ']')
          || (l.contains '{' && l.contains '}'))
      if node_count < 2 then false else true

/-!  ## `FlowchartAgent._generate_fallback_flowchart`  -/

/-- The canned notification-domain template returned by
`_generate_fallback_flowchart` (lines 382-417). -/
def notification_template : Str := joinLines [
  str "flowchart TD",
  str "    Start[User Action in Discord Mobile App] --> CheckOnline\x7bUser Online?\x7d",
  str "    CheckOnline -->|Yes| CheckSettings\x7bNotification Settings Enabled?\x7d",
  str "    CheckOnline -->|No| QueueNotification[Queue Notification]",
  str "    CheckSettings -->|No| End1[End - No Notification]",
  str "    CheckSettings -->|Yes| CheckPermission\x7bPush Permission Granted?\x7d",
  str "    CheckPermission -->|No| RequestPermission[Request Push Permission]",
  str "    RequestPermission --> CheckPermission",
  str "    CheckPermission -->|Yes| DetermineType\x7bDetermine Notification Type\x7d",
  str "    DetermineType -->|Message| MessageNotif[Message Notification]",
  str "    DetermineType -->|Mention| MentionNotif[Mention Notification]",
  str "    DetermineType -->|DM| DMNotif[Direct Message Notification]",
  str "    DetermineType -->|Server| ServerNotif[Server Event Notification]",
  str "    MessageNotif --> CheckQuietHours\x7bQuiet Hours Active?\x7d",
  str "    MentionNotif --> CheckQuietHours",
  str "    DMNotif --> CheckQuietHours",
  str "    ServerNotif --> CheckQuietHours",
  str "    CheckQuietHours -->|Yes| QueueNotification",
  str "    CheckQuietHours -->|No| FormatNotification[Format Notification Content]",
  str "    FormatNotification --> CheckDoNotDisturb\x7bDo Not Disturb Active?\x7d",
  str "    CheckDoNotDisturb -->|Yes| QueueNotification",
  str "    CheckDoNotDisturb -->|No| SendPush[Send Push Notification via FCM/APNS]",
  str "    SendPush --> DeviceReceive[Device Receives Notification]",
  str "    DeviceReceive --> DisplayNotif[Display in Notification Center]",
  str "    DisplayNotif --> UserInteracts\x7bUser Interacts?\x7d",
  str "    UserInteracts -->|Tap| OpenApp[Open Discord App]",
  str "    UserInteracts -->|Dismiss| Dismiss[Notification Dismissed]",
  str "    UserInteracts -->|Swipe| SwipeAction[Perform Swipe Action]",
  str "    OpenApp --> NavigateToContent[Navigate to Relevant Content]",
  str "    NavigateToContent --> MarkRead[Mark as Read]",
  str "    MarkRead --> End2[End]",
  str "    Dismiss --> End2",
  str "    SwipeAction --> End2",
  str "    QueueNotification --> CheckOnline",
  str "    End1 --> EndFinal[End]",
  str "    End2 --> EndFinal"]

/-- The canned authentication-domain template returned by
`_generate_fallback_flowchart` (lines 420-427). -/
def login_template : Str := joinLines [
  str "flowchart TD",
  str "    A[Start] --> B[Enter Credentials]",
  str "    B --> C\x7bValid Credentials?\x7d",
  str "    C -->|Yes| D[Create Session]",
  str "    C -->|No| E[Show Error]",
  str "    E --> B",
  str "    D --> F[Redirect to Dashboard]",
  str "    F --> G[End]"]

/-- The character set stripped from the left of candidate step lines:
`line.lstrip('-*•123456789. ')`. -/
def step_lstrip_set : Str := str "-*•123456789. "

/-- The usable steps split out of the description by the generic fallback path
(lines 429-435). -/
def fallback_steps (description : Str) : List Str :=
  (splitLines description).filterMap (fun l =>
    let l1 := stripWs l
    if l1.isEmpty || startsW l1 (str "#") then none
    else
      let l2 := l1.dropWhile (fun c => step_lstrip_set.contains c)
      if l2.isEmpty then none else some (l2.take 50))

/-- `clean_step`: `step.replace('[', '').replace(']', '').replace('"', "'")`. -/
def clean_step (s : Str) : Str :=
  (s.filter (fun c => !(c = '[' || c = ']'))).map (fun c => if c = '"' then '\'' else c)

/-- `chr(65 + i)`. -/
def chr65 (i : Nat) : Char := Char.ofNat (65 + i)

/-- One node line of the generic fallback chain: `    {node_id}[{clean_step}]`. -/
def fallback_node_line (i : Nat) (st : Str) : Str :=
  str "    " ++ chr65 i :: '[' :: (clean_step st ++ [']'])

/-- One connection line of the generic fallback chain: `    {prev_id} --> {node_id}`. -/
def fallback_conn_line (i : Nat) : Str :=
  str "    " ++ chr65 (i - 1) :: (str " --> " ++ [chr65 i])

/-- `_generate_fallback_flowchart` (lines 378-457): deterministic model-free
diagram synthesis from the description text. -/
def generate_fallback_flowchart (description : Str) : Str :=
  let dl := toLowerStr description
  if containsStr dl (str "notification") &&
      (containsStr dl (str "discord") || containsStr dl (str "mobile")
        || containsStr dl (str "app")) then
    notification_template
  else if containsStr dl (str "login") || containsStr dl (str "auth") then
    login_template
  else
    let steps0 := fallback_steps description
    let steps := if steps0.isEmpty then
        [str "Start", description.take 40, str "Process", str "End"]
      else steps0
    let stepsT := steps.take 8
    let nodes := stepsT.enum.map (fun p => fallback_node_line p.1 p.2)
    let conns := stepsT.enum.filterMap
      (fun p => if 0 < p.1 then some (fallback_conn_line p.1) else none)
    str "flowchart TD\n" ++ joinLines nodes ++ '\n' :: joinLines conns

/-!  ## `clean_label` and its regex substitutions  -/

theorem dropWhile_length_le (p : Char → Bool) (l : Str) :
    (l.dropWhile p).length ≤ l.length := by
  induction l with
  | nil => simp [List.dropWhile]
  | cons c t ih =>
    simp only [List.dropWhile]
    split
    · exact Nat.le_succ_of_le ih
    · simp

/-- Matcher for `\s*-\s*-` at the head of a string: returns the remainder. -/
def matchDoubleDash (cs : Str) : Option Str :=
  match cs.dropWhile isWsChar with
  | '-' :: r2 =>
    match r2.dropWhile isWsChar with
    | '-' :: r4 => some r4
    | _ => none
  | _ => none

theorem matchDoubleDash_length {cs r : Str} (h : matchDoubleDash cs = some r) :
    r.length < cs.length := by
  unfold matchDoubleDash at h
  have h1 : (cs.dropWhile isWsChar).length ≤ cs.length := dropWhile_length_le isWsChar cs
  cases h2 : cs.dropWhile isWsChar with
  | nil => rw [h2] at h; simp at h
  | cons a r2 =>
    rw [h2] at h
    by_cases ha : a = '-'
    · subst ha
      simp only at h
      have h3 : (r2.dropWhile isWsChar).length ≤ r2.length := dropWhile_length_le isWsChar r2
      cases h4 : r2.dropWhile isWsChar with
      | nil => rw [h4] at h; simp at h
      | cons b r4 =>
        rw [h4] at h
        by_cases hb : b = '-'
        · subst hb
          simp only [Option.some.injEq] at h
          subst h
          rw [h2] at h1; rw [h4] at h3
          simp [List.length_cons] at h1 h3
          omega
        · simp [hb] at h
    · simp [ha] at h

/-- `re.sub(r'\s*-\s*-', '-', text)` (fuel-indexed worker). -/
def sub_double_dash_go : Nat → Str → Str
  | 0, s => s
  | fuel + 1, s =>
    match matchDoubleDash s with
    | some r => '-' :: sub_double_dash_go fuel r
    | none =>
      match s with
      | [] => []
      | c :: t => c :: sub_double_dash_go fuel t

/-- `re.sub(r'\s*-\s*-', '-', text)`. -/
def sub_double_dash (s : Str) : Str := sub_double_dash_go (s.length + 1) s

/-- `re.sub(r'\s*-\s*$', '', text)`: strip one trailing dash together with the
whitespace around it. -/
def sub_trailing_dash (s : Str) : Str :=
  let r1 := rstripWs s
  match r1.getLast? with
  | some '-' => rstripWs r1.dropLast
  | _ => s

/-- `re.sub(r'^\s*-\s*', '', text)`. -/
def sub_leading_dash (s : Str) : Str :=
  match s.dropWhile isWsChar with
  | '-' :: r => r.dropWhile isWsChar
  | _ => s

/-- `re.sub(r'\s+', ' ', text)` (fuel-indexed worker). -/
def collapse_ws_go : Nat → Str → Str
  | 0, s => s
  | fuel + 1, s =>
    match s with
    | [] => []
    | c :: t =>
      if isWsChar c then ' ' :: collapse_ws_go fuel (t.dropWhile isWsChar)
      else c :: collapse_ws_go fuel t

/-- `re.sub(r'\s+', ' ', text)`. -/
def collapse_ws (s : Str) : Str := collapse_ws_go (s.length + 1) s

/-- `text.rstrip('.,;:')`. -/
def rstrip_punct (s : Str) : Str :=
  (s.reverse.dropWhile (fun c => c = '.' || c = ',' || c = ';' || c = ':')).reverse

/-- `clean_label` from `_sanitize_mermaid` (lines 546-566): clean node labels,
substituting the placeholder `"Label"` when the result is empty. -/
def clean_label (text : Str) : Str :=
  if text.isEmpty then text
  else
    let t := text.map (fun c => if c = '"' || c = '`' then '\'' else c)
    let t := sub_double_dash t
    let t := sub_trailing_dash t
    let t := sub_leading_dash t
    let t := rstrip_punct t
    let t := collapse_ws t
    let t := stripWs t
    if t.isEmpty then str "Label" else t

/-- `re.sub(r'[^\w\s\-\'\(\)]', '', label)`: the allow-list filter for
rectangle and rounded labels. -/
def allow_filter_base (s : Str) : Str :=
  s.filter (fun c => isWordChar c || isWsChar c || c = '-' || c = '\'' || c = '(' || c = ')')

/-- `re.sub(r'[^\w\s\-\'\(\)?]', '', label)`: the allow-list filter for diamond
labels (keeps `?`). -/
def allow_filter_q (s : Str) : Str :=
  s.filter (fun c =>
    isWordChar c || isWsChar c || c = '-' || c = '\'' || c = '(' || c = ')' || c = '?')

/-!  ## `sanitize_node`  -/

/-- `extract_node_id` (lines 568-575); `seen_nodes` is never populated, so the
no-match fallback is always `"node0"`. -/
def extract_node_id (node_str : Str) : Str :=
  let m := (stripWs node_str).takeWhile isWordChar
  if m.isEmpty then str "node0" else m

/-- Index of the first occurrence of a character. -/
def findCharIdx (s : Str) (c : Char) : Option Nat :=
  match s with
  | [] => none
  | x :: t => if x = c then some 0 else (findCharIdx t c).map (· + 1)

/-- The bracket-depth scan of `sanitize_node`: starting at the opening symbol,
find the relative index of the closing symbol that returns the depth to zero. -/
def matchCloseIdx (opn cls : Char) : Str → Int → Option Nat
  | [], _ => none
  | c :: t, d =>
    if c = opn then (matchCloseIdx opn cls t (d + 1)).map (· + 1)
    else if c = cls then
      if d = 1 then some 0 else (matchCloseIdx opn cls t (d - 1)).map (· + 1)
    else (matchCloseIdx opn cls t d).map (· + 1)

/-- `s[:i]` up to the first occurrence of `pat` (the whole string if absent):
`s.split(pat)[0]`. -/
def beforeSub (s pat : Str) : Str :=
  match findSubIdx s pat with
  | some i => s.take i
  | none => s

/-- One shape case of `sanitize_node`: `opn`/`cls` delimit the label, `af` is
the allow-list filter for this shape. -/
def sanitize_node_shape (opn cls : Char) (af : Str → Str) (node_str node_id : Str) : Str :=
  match findCharIdx node_str opn with
  | none => node_str
  | some bs =>
    let tl := node_str.drop bs
    match matchCloseIdx opn cls tl 0 with
    | some rel =>
      let label := (tl.drop 1).take (rel - 1)
      let label := af (clean_label label)
      node_id ++ opn :: (label ++ [cls])
    | none =>
      let label_part := node_str.drop (bs + 1)
      let label := stripWs (beforeSub label_part (str "-->"))
      let label := if label.contains cls then beforeSub label [cls] else label
      let label := af (clean_label label)
      node_id ++ opn :: (label ++ [cls])

/-- `sanitize_node` (lines 577-702): repair one node reference. -/
def sanitize_node (node_str0 : Str) : Str :=
  let node_str := stripWs node_str0
  if node_str.isEmpty then []
  else
    let node_id := extract_node_id node_str
    if node_str.contains '[' then
      sanitize_node_shape '[' ']' allow_filter_base node_str node_id
    else if node_str.contains '\x7b' then
      sanitize_node_shape '\x7b' '\x7d' allow_filter_q node_str node_id
    else if node_str.contains '(' then
      sanitize_node_shape '(' ')' allow_filter_base node_str node_id
    else
      node_id

/-!  ## `sanitize_mermaid`  -/

/-- Consume one expected character. -/
def expectChar (c : Char) : Str → Option Str
  | x :: t => if x = c then some t else none
  | [] => none

theorem expectChar_length {c : Char} {s r : Str} (h : expectChar c s = some r) :
    r.length < s.length := by
  cases s with
  | nil => simp [expectChar] at h
  | cons x t =>
    simp only [expectChar] at h
    split at h
    · simp only [Option.some.injEq] at h; subst h; simp
    · simp at h

/-- Matcher for `--\s*>` at the head of a string. -/
def matchArrowA (cs : Str) : Option Str :=
  (expectChar '-' cs).bind fun t1 =>
  (expectChar '-' t1).bind fun t2 =>
  expectChar '>' (t2.dropWhile isWsChar)

theorem matchArrowA_length {cs r : Str} (h : matchArrowA cs = some r) :
    r.length < cs.length := by
  unfold matchArrowA at h
  rw [Option.bind_eq_some] at h
  obtain ⟨t1, h1, h⟩ := h
  rw [Option.bind_eq_some] at h
  obtain ⟨t2, h2, h3⟩ := h
  have l1 := expectChar_length h1
  have l2 := expectChar_length h2
  have l3 := expectChar_length h3
  have l4 := dropWhile_length_le isWsChar t2
  omega

/-- Matcher for `-\s*->` at the head of a string. -/
def matchArrowB (cs : Str) : Option Str :=
  (expectChar '-' cs).bind fun t1 =>
  (expectChar '-' (t1.dropWhile isWsChar)).bind fun t2 =>
  expectChar '>' t2

theorem matchArrowB_length {cs r : Str} (h : matchArrowB cs = some r) :
    r.length < cs.length := by
  unfold matchArrowB at h
  rw [Option.bind_eq_some] at h
  obtain ⟨t1, h1, h⟩ := h
  rw [Option.bind_eq_some] at h
  obtain ⟨t2, h2, h3⟩ := h
  have l1 := expectChar_length h1
  have l2 := expectChar_length h2
  have l3 := expectChar_length h3
  have l4 := dropWhile_length_le isWsChar t1
  omega

/-- `re.sub(r'--\s*>', '-->', line)` (fuel-indexed worker). -/
def subArrowA_go : Nat → Str → Str
  | 0, s => s
  | fuel + 1, s =>
    match matchArrowA s with
    | some r => '-' :: '-' :: '>' :: subArrowA_go fuel r
    | none =>
      match s with
      | [] => []
      | c :: t => c :: subArrowA_go fuel t

/-- `re.sub(r'--\s*>', '-->', line)`. -/
def subArrowA (s : Str) : Str := subArrowA_go (s.length + 1) s

/-- `re.sub(r'-\s*->', '-->', line)` (fuel-indexed worker). -/
def subArrowB_go : Nat → Str → Str
  | 0, s => s
  | fuel + 1, s =>
    match matchArrowB s with
    | some r => '-' :: '-' :: '>' :: subArrowB_go fuel r
    | none =>
      match s with
      | [] => []
      | c :: t => c :: subArrowB_go fuel t

/-- `re.sub(r'-\s*->', '-->', line)`. -/
def subArrowB (s : Str) : Str := subArrowB_go (s.length + 1) s

/-- `re.sub(r'->', '-->', line)`. -/
def subArrowC : Str → Str
  | [] => []
  | '-' :: '>' :: t => '-' :: '-' :: '>' :: subArrowC t
  | c :: t => c :: subArrowC t

/-- `\s*(.+)$` with a greedy `\s*`: the group is the text from the first
non-whitespace character on (or the final character if all whitespace). -/
def lazyDotPlus (after : Str) : Option Str :=
  if after.isEmpty then none
  else
    let r := after.dropWhile isWsChar
    if r.isEmpty then some (after.drop (after.length - 1)) else some r

/-- Backtracking matcher for `\s*(.+?)\s*\|\s*(.+)$`, used after the first `|`
of the labeled-connection pattern in `_sanitize_mermaid`. -/
def lmAfterPipe (r3 : Str) : Option (Str × Str) :=
  let w0 := (r3.takeWhile isWsChar).length
  (List.range (w0 + 1)).findSome? fun k =>
    let base := r3.drop (w0 - k)
    (List.range base.length).findSome? fun j =>
      let g2 := base.take (j + 1)
      let t := base.drop (j + 1)
      let t2 := t.dropWhile isWsChar
      match t2 with
      | '|' :: after => (lazyDotPlus after).map (fun g3 => (g2, g3))
      | _ => none

/-- Backtracking matcher for the labeled-connection pattern
`^(.+?)\s*-->\s*\|\s*(.+?)\s*\|\s*(.+)$` of `_sanitize_mermaid` (line 723). -/
def labeled_match (s : Str) : Option (Str × Str × Str) :=
  (List.range s.length).findSome? fun j =>
    let g1 := s.take (j + 1)
    let t := s.drop (j + 1)
    let r1 := t.dropWhile isWsChar
    if startsW r1 (str "-->") then
      match (r1.drop 3).dropWhile isWsChar with
      | '|' :: r3 => (lmAfterPipe r3).map (fun p => (g1, p.1, p.2))
      | _ => none
    else none

/-- `_sanitize_mermaid` (lines 538-744): line-by-line recovery parser. -/
def sanitize_mermaid (code : Str) : Str :=
  joinLines ((splitLines code).filterMap (fun line0 =>
    let line := stripWs line0
    if line.isEmpty || startsW line (str "%%") then none
    else if startsW line (str "flowchart") then some line
    else
      let line := subArrowC (subArrowB (subArrowA line))
      if containsStr line (str "-->") then
        match labeled_match line with
        | some (g1, g2, g3) =>
          some (str "    " ++ sanitize_node (stripWs g1) ++ str " -->|"
            ++ clean_label g2 ++ str "| " ++ sanitize_node (stripWs g3))
        | none =>
          match splitOnStr line (str "-->") with
          | p0 :: p1 :: _ =>
            some (str "    " ++ sanitize_node (stripWs p0) ++ str " --> "
              ++ sanitize_node (stripWs p1))
          | _ => none
      else
        let sn := sanitize_node line
        if sn.isEmpty then none else some (str "    " ++ sn)))

/-!  ## `_wrap_special_labels`  -/

/-- The character class `[()\[\]{}:;,'"\x60]` of `_wrap_label_if_needed`. -/
def isSpecialLabelChar (c : Char) : Bool :=
  c = '(' || c = ')' || c = '[' || c = ']' || c = '\x7b' || c = '\x7d'
    || c = ':' || c = ';' || c = ',' || c = '\'' || c = '"' || c = '\x60'

/-- `_wrap_label_if_needed` (lines 795-814). -/
def wrap_label_if_needed (node_id label : Str) (bt : Char) : Str :=
  if label.any isSpecialLabelChar
      && !(startsW label (str "\"") && label.getLast? = some '"') then
    if bt = '[' then node_id ++ str "[\"" ++ label ++ str "\"]"
    else if bt = '\x7b' then node_id ++ str "\x7b\"" ++ label ++ str "\"\x7d"
    else if bt = '(' then node_id ++ str "(\"" ++ label ++ str "\")"
    else node_id ++ '[' :: (label ++ [']'])
  else
    if bt = '[' then node_id ++ '[' :: (label ++ [']'])
    else if bt = '\x7b' then node_id ++ '\x7b' :: (label ++ ['\x7d'])
    else if bt = '(' then node_id ++ '(' :: (label ++ [')'])
    else node_id ++ '[' :: (label ++ [']'])

/-- `_wrap_connection_label` (lines 816-822). -/
def wrap_connection_label (left label right : Str) : Str :=
  if label.any isSpecialLabelChar
      && !(startsW label (str "\"") && label.getLast? = some '"') then
    left ++ str " -->|\"" ++ label ++ str "\"| " ++ right
  else
    left ++ str " -->|" ++ label ++ str "| " ++ right

/-- Scanner for `re.sub(r'(\s*)([a-zA-Z0-9_]+)OPEN([^CLOSE]+)CLOSE', ...)`:
replaces every identifier-plus-delimited-label occurrence, scanning left to
right.  `prevW` records whether the previous character was a word character,
so a match can only start at the beginning of a word run. -/
def wrapNodeScan_go (obr cbr : Char) (f : Str → Str → Str) : Nat → Bool → Str → Str
  | 0, _, cs => cs
  | _ + 1, _, [] => []
  | fuel + 1, prevW, c :: t =>
    if prevW || !isWordChar c then c :: wrapNodeScan_go obr cbr f fuel (isWordChar c) t
    else
      let run := (c :: t).takeWhile isWordChar
      match (c :: t).drop run.length with
      | r0 :: r2 =>
        if r0 = obr then
          match findCharIdx r2 cbr with
          | some k =>
            if k = 0 then c :: wrapNodeScan_go obr cbr f fuel true t
            else f run (r2.take k) ++ wrapNodeScan_go obr cbr f fuel false (r2.drop (k + 1))
          | none => c :: wrapNodeScan_go obr cbr f fuel true t
        else c :: wrapNodeScan_go obr cbr f fuel true t
      | [] => c :: wrapNodeScan_go obr cbr f fuel true t

/-- Entry point of the node-pattern scanner. -/
def wrapNodeScan (obr cbr : Char) (f : Str → Str → Str) (prevW : Bool) (cs : Str) : Str :=
  wrapNodeScan_go obr cbr f (cs.length + 1) prevW cs

/-- Backtracking matcher for the connection-label substitution pattern of
`_wrap_special_labels` (line 786):
`(\s*)(.+?)\s*-->\s*\|\s*([^|]+?)\s*\|\s*(.+)`. -/
def connG3Search (r3 : Str) : Option (Str × Str) :=
  let w0 := (r3.takeWhile isWsChar).length
  (List.range (w0 + 1)).findSome? fun k =>
    let base := r3.drop (w0 - k)
    (List.range base.length).findSome? fun j =>
      let g3 := base.take (j + 1)
      if g3.contains '|' then none
      else
        match (base.drop (j + 1)).dropWhile isWsChar with
        | '|' :: after => (lazyDotPlus after).map (fun g4 => (g3, g4))
        | _ => none

/-- Leftmost-match search for the full connection-label pattern of
`_wrap_special_labels`; returns `(group1, group2, group3, group4)`. -/
def connLabelSearch (line : Str) : Option (Str × Str × Str × Str) :=
  let w0 := (line.takeWhile isWsChar).length
  (List.range (w0 + 1)).findSome? fun k =>
    let g1 := line.take (w0 - k)
    let body := line.drop (w0 - k)
    (List.range body.length).findSome? fun j =>
      let g2 := body.take (j + 1)
      let t := body.drop (j + 1)
      let r1 := t.dropWhile isWsChar
      if startsW r1 (str "-->") then
        match (r1.drop 3).dropWhile isWsChar with
        | '|' :: r3 => (connG3Search r3).map (fun p => (g1, g2, p.1, p.2))
        | _ => none
      else none

/-- `_wrap_special_labels` (lines 746-793). -/
def wrap_special_labels (code : Str) : Str :=
  joinLines ((splitLines code).map (fun line =>
    let ls := stripWs line
    if ls.isEmpty || startsW ls (str "flowchart") then line
    else
      let l1 := wrapNodeScan '[' ']' (fun i l => wrap_label_if_needed i l '[') false line
      let l2 := wrapNodeScan '\x7b' '\x7d' (fun i l => wrap_label_if_needed i l '\x7b') false l1
      let l3 := wrapNodeScan '(' ')' (fun i l => wrap_label_if_needed i l '(') false l2
      match connLabelSearch l3 with
      | some (g1, g2, g3, g4) => g1 ++ wrap_connection_label g2 g3 g4
      | none => l3))

/-!  ## `_final_cleanup`  -/

/-- A closing bracket, brace, or parenthesis. -/
def isCloserChar (c : Char) : Bool := c = ']' || c = '\x7d' || c = ')'

/-- `re.sub(r'(\]|\}|\))\s+[^\s\-\|]', r'\1', left)`. -/
def subCloseWsJunk_go : Nat → Str → Str
  | 0, s => s
  | _ + 1, [] => []
  | fuel + 1, c :: t =>
    if isCloserChar c then
      let w := t.takeWhile isWsChar
      if w.isEmpty then c :: subCloseWsJunk_go fuel t
      else
        match t.drop w.length with
        | x :: r =>
          if x = '-' || x = '|' then c :: subCloseWsJunk_go fuel t
          else c :: subCloseWsJunk_go fuel r
        | [] => c :: subCloseWsJunk_go fuel t
    else c :: subCloseWsJunk_go fuel t

/-- `re.sub(r'(\]|\}|\))\s+[^\s\-\|]', r'\1', left)`. -/
def subCloseWsJunk (s : Str) : Str := subCloseWsJunk_go (s.length + 1) s

/-- `re.sub(r'(\]|\}|\))([^\s\-\|])', r'\1', left)`. -/
def subCloseJunkTight (s : Str) : Str :=
  match s with
  | [] => []
  | [c] => [c]
  | c :: x :: r =>
    if isCloserChar c && !(isWsChar x || x = '-' || x = '|') then
      c :: subCloseJunkTight r
    else c :: subCloseJunkTight (x :: r)

/-- `re.sub(r'(\]|\}|\))\s+.*$', r'\1', line)`. -/
def subCloseCutAll (s : Str) : Str :=
  match s with
  | [] => []
  | c :: t =>
    if isCloserChar c && (match t.head? with
        | some x => isWsChar x
        | none => false) then [c]
    else c :: subCloseCutAll t

/-- `re.sub(r'(\]|\}|\))([^\s\-\|].*)$', r'\1', line)`. -/
def subCloseCutJunk (s : Str) : Str :=
  match s with
  | [] => []
  | c :: t =>
    if isCloserChar c && (match t.head? with
        | some x => !(isWsChar x || x = '-' || x = '|')
        | none => false) then [c]
    else c :: subCloseCutJunk t

/-- Matcher for `\s*-\s*-\s*` at the head of a string (trailing run included). -/
def matchDD3 (cs : Str) : Option Str :=
  match cs.dropWhile isWsChar with
  | '-' :: r2 =>
    match r2.dropWhile isWsChar with
    | '-' :: r4 => some (r4.dropWhile isWsChar)
    | _ => none
  | _ => none

theorem matchDD3_length {cs r : Str} (h : matchDD3 cs = some r) :
    r.length < cs.length := by
  unfold matchDD3 at h
  have h1 : (cs.dropWhile isWsChar).length ≤ cs.length := dropWhile_length_le isWsChar cs
  cases h2 : cs.dropWhile isWsChar with
  | nil => rw [h2] at h; simp at h
  | cons a r2 =>
    rw [h2] at h
    by_cases ha : a = '-'
    · subst ha
      simp only at h
      have h3 : (r2.dropWhile isWsChar).length ≤ r2.length := dropWhile_length_le isWsChar r2
      cases h4 : r2.dropWhile isWsChar with
      | nil => rw [h4] at h; simp at h
      | cons b r4 =>
        rw [h4] at h
        by_cases hb : b = '-'
        · subst hb
          simp only [Option.some.injEq] at h
          subst h
          have h5 : (r4.dropWhile isWsChar).length ≤ r4.length := dropWhile_length_le isWsChar r4
          rw [h2] at h1; rw [h4] at h3
          simp [List.length_cons] at h1 h3
          omega
        · simp [hb] at h
    · simp [ha] at h

/-- Matcher for `\s*-\s*` at the head of a string (trailing run included). -/
def matchSD2 (cs : Str) : Option Str :=
  match cs.dropWhile isWsChar with
  | '-' :: r2 => some (r2.dropWhile isWsChar)
  | _ => none

theorem matchSD2_length {cs r : Str} (h : matchSD2 cs = some r) :
    r.length < cs.length := by
  unfold matchSD2 at h
  have h1 : (cs.dropWhile isWsChar).length ≤ cs.length := dropWhile_length_le isWsChar cs
  cases h2 : cs.dropWhile isWsChar with
  | nil => rw [h2] at h; simp at h
  | cons a r2 =>
    rw [h2] at h
    by_cases ha : a = '-'
    · subst ha
      simp only [Option.some.injEq] at h
      subst h
      have h3 : (r2.dropWhile isWsChar).length ≤ r2.length := dropWhile_length_le isWsChar r2
      rw [h2] at h1
      simp [List.length_cons] at h1
      omega
    · simp [ha] at h

/-- Lazy search for `([^CLOSE]*?)\s*-\s*-\s*`: the shortest prefix (containing
no closer) followed by a double-dash pattern; returns the prefix and the
remainder after the double dash. -/
def tryDDIn (cbr : Char) : Str → Option (Str × Str)
  | [] => (matchDD3 []).map (fun r => (([] : Str), r))
  | c :: t =>
    match matchDD3 (c :: t) with
    | some r => some ([], r)
    | none =>
      if c = cbr then none
      else (tryDDIn cbr t).map (fun p => (c :: p.1, p.2))

theorem tryDDIn_length {cbr : Char} {s : Str} {p : Str × Str}
    (h : tryDDIn cbr s = some p) : p.2.length ≤ s.length := by
  induction s generalizing p with
  | nil =>
    simp only [tryDDIn] at h
    cases hm : matchDD3 ([] : Str) with
    | some r => exact absurd (matchDD3_length hm) (by simp)
    | none => rw [hm] at h; simp at h
  | cons a b ih =>
    simp only [tryDDIn] at h
    cases hm : matchDD3 (a :: b) with
    | some r =>
      rw [hm] at h
      simp only [Option.some.injEq] at h
      have hl := matchDD3_length hm
      rw [← h]
      simp at hl ⊢
      omega
    | none =>
      rw [hm] at h
      simp only at h
      split at h
      · simp at h
      · cases hq : tryDDIn cbr b with
        | none => rw [hq] at h; simp at h
        | some q =>
          rw [hq] at h
          simp only [Option.map_some', Option.some.injEq] at h
          have := ih hq
          rw [← h]
          simp
          omega

/-- `re.sub` of `OPEN([^CLOSE]*?)\s*-\s*-\s*([^CLOSE]*?)CLOSE` with
`OPEN\1-\2CLOSE` (the doubled-dash-in-label fixes of `_final_cleanup`). -/
def ddInDelims_go (obr cbr : Char) : Nat → Str → Str
  | 0, s => s
  | _ + 1, [] => []
  | fuel + 1, c :: t =>
    if c = obr then
      match tryDDIn cbr t with
      | some (g1, rem) =>
        match findCharIdx rem cbr with
        | some k =>
          obr :: (g1 ++ '-' :: (rem.take k ++ cbr :: ddInDelims_go obr cbr fuel (rem.drop (k + 1))))
        | none => c :: ddInDelims_go obr cbr fuel t
      | none => c :: ddInDelims_go obr cbr fuel t
    else c :: ddInDelims_go obr cbr fuel t

/-- Entry point of the doubled-dash-in-label fix. -/
def ddInDelims (obr cbr : Char) (s : Str) : Str := ddInDelims_go obr cbr (s.length + 1) s

/-- `re.sub(r'([^\s])\s*-\s*-\s*([\]\}])', r'\1\2', line)`. -/
def subDashDashCloser_go : Nat → Str → Str
  | 0, s => s
  | _ + 1, [] => []
  | fuel + 1, c :: t =>
    if !isWsChar c then
      match matchDD3 t with
      | some (x :: r2) =>
        if x = ']' || x = '\x7d' then c :: x :: subDashDashCloser_go fuel r2
        else c :: subDashDashCloser_go fuel t
      | some [] => c :: subDashDashCloser_go fuel t
      | none => c :: subDashDashCloser_go fuel t
    else c :: subDashDashCloser_go fuel t

/-- Entry point of the dash-dash-before-closer fix. -/
def subDashDashCloser (s : Str) : Str := subDashDashCloser_go (s.length + 1) s

/-- `re.sub(r'([^\s])\s*-\s*([\]\}])', r'\1\2', line)`. -/
def subDashCloser_go : Nat → Str → Str
  | 0, s => s
  | _ + 1, [] => []
  | fuel + 1, c :: t =>
    if !isWsChar c then
      match matchSD2 t with
      | some (x :: r2) =>
        if x = ']' || x = '\x7d' then c :: x :: subDashCloser_go fuel r2
        else c :: subDashCloser_go fuel t
      | some [] => c :: subDashCloser_go fuel t
      | none => c :: subDashCloser_go fuel t
    else c :: subDashCloser_go fuel t

/-- Entry point of the dash-before-closer fix. -/
def subDashCloser (s : Str) : Str := subDashCloser_go (s.length + 1) s

/-- `re.sub(r'\[[\s-]+\]', '[Label]', line)` (and its brace analogue):
replace delimiters containing only whitespace/dashes with a placeholder. -/
def emptyLabelFix_go (obr cbr : Char) (rep : Str) : Nat → Str → Str
  | 0, s => s
  | _ + 1, [] => []
  | fuel + 1, c :: t =>
    if c = obr then
      let w := t.takeWhile (fun x => isWsChar x || x = '-')
      if w.isEmpty then c :: emptyLabelFix_go obr cbr rep fuel t
      else
        match t.drop w.length with
        | x :: r =>
          if x = cbr then rep ++ emptyLabelFix_go obr cbr rep fuel r
          else c :: emptyLabelFix_go obr cbr rep fuel t
        | [] => c :: emptyLabelFix_go obr cbr rep fuel t
    else c :: emptyLabelFix_go obr cbr rep fuel t

/-- Entry point of the empty-label placeholder fix. -/
def emptyLabelFix (obr cbr : Char) (rep : Str) (s : Str) : Str :=
  emptyLabelFix_go obr cbr rep (s.length + 1) s

/-- `_final_cleanup` (lines 824-873). -/
def final_cleanup (code : Str) : Str :=
  joinLines ((splitLines code).map (fun line0 =>
    let line := stripWs line0
    if line.isEmpty || startsW line (str "flowchart") then line0
    else if containsStr line (str "-->") then
      match splitOnce line (str "-->") with
      | [p0, p1] =>
        let left := stripWs p0
        let right := stripWs p1
        let lc := subCloseJunkTight (subCloseWsJunk left)
        str "    " ++ lc ++ str " --> " ++ right
      | _ => str "    " ++ line
    else
      let l1 := subCloseCutAll line
      let l2 := subCloseCutJunk l1
      let l3 := ddInDelims '[' ']' l2
      let l4 := ddInDelims '\x7b' '\x7d' l3
      let l5 := subDashDashCloser l4
      let l6 := subDashCloser l5
      let l7 := emptyLabelFix '[' ']' (str "[Label]") l6
      let l8 := emptyLabelFix '\x7b' '\x7d' (str "\x7bLabel\x7d") l7
      str "    " ++ l8))

/-!  ## `_normalize_flowchart_header`  -/

/-- `a` and `b` spell a known direction token, case-insensitively. -/
def isDirPair (a b : Char) : Bool :=
  let p : Str := [a.toLower, b.toLower]
  p = str "td" || p = str "lr" || p = str "tb" || p = str "bt" || p = str "rl"

/-- The anchored match `^(flowchart\s+(?:TD|LR|TB|BT|RL))` (case-insensitive)
applied to a stripped line known to start with `flowchart`; returns the
normalized header line. -/
def header_norm_line (ls : Str) : Str :=
  let rest := ls.drop 9
  let w := rest.takeWhile isWsChar
  if w.isEmpty then str "flowchart TD"
  else
    match rest.drop w.length with
    | a :: b :: _ =>
      if isDirPair a b then ls.take 9 ++ w ++ [a, b] else str "flowchart TD"
    | _ => str "flowchart TD"

/-- Replace the first line whose stripped form starts with `flowchart`. -/
def header_fix_lines : List Str → List Str
  | [] => []
  | l :: ls =>
    let st := stripWs l
    if startsW st (str "flowchart") then header_norm_line st :: ls
    else l :: header_fix_lines ls

/-- `_normalize_flowchart_header` (lines 875-895). -/
def normalize_flowchart_header (code : Str) : Str :=
  joinLines (header_fix_lines (splitLines code))

/-!  ## `_check_syntax_errors`  -/

/-- Decimal representation of a line number. -/
def nat_str (n : Nat) : Str := (toString n).data

/-- Search for `CLOSE\s*[^\s\-\|]` anywhere in the line. -/
def has_close_viol (cl : Char) : Str → Bool
  | [] => false
  | c :: t =>
    (c = cl && (match t.dropWhile isWsChar with
      | x :: _ => !(x = '-' || x = '|')
      | [] => false)) || has_close_viol cl t

/-- The error messages contributed by one line (1-based index `i`). -/
def line_err_msgs (i : Nat) (line : Str) : List Str :=
  let l := stripWs line
  if l.isEmpty || startsW l (str "flowchart") || startsW l (str "%%") then []
  else
    (if l.count '[' ≠ l.count ']' then
      [str "Line " ++ nat_str i ++ str ": Unmatched square brackets"] else [])
    ++ (if l.count '\x7b' ≠ l.count '\x7d' then
      [str "Line " ++ nat_str i ++ str ": Unmatched curly braces"] else [])
    ++ (if l.count '(' ≠ l.count ')' then
      [str "Line " ++ nat_str i ++ str ": Unmatched parentheses"] else [])
    ++ (if containsStr l (str "-->") then
        (if has_close_viol ']' l then
          [str "Line " ++ nat_str i ++ str ": Invalid character after closing bracket"] else [])
        ++ (if has_close_viol '\x7d' l then
          [str "Line " ++ nat_str i ++ str ": Invalid character after closing brace"] else [])
      else [])

/-- `_check_syntax_errors` (lines 1048-1074). -/
def check_syntax_errors (code : Str) : List Str :=
  ((splitLines code).enum.map (fun p => line_err_msgs (p.1 + 1) p.2)).join

/-!  ## `_remove_duplicate_nodes`  -/

/-- `_remove_duplicate_nodes` (lines 1018-1046): drop standalone node
definitions whose identifier was already defined. -/
def remove_duplicate_nodes (code : Str) : Str :=
  let step := fun (st : List Str × List Str) (line : Str) =>
    let (seen, out) := st
    let ls := stripWs line
    if ls.isEmpty || startsW ls (str "flowchart") then (seen, out ++ [line])
    else if containsStr line (str "-->") then (seen, out ++ [line])
    else
      let m := ls.takeWhile isWordChar
      if m.isEmpty then (seen, out ++ [line])
      else if seen.contains m then (seen, out)
      else (seen ++ [m], out ++ [line])
  joinLines ((splitLines code).foldl step ([], [])).2

/-!  ## `_normalize_end_nodes`  -/

/-- One shape of the End-node pattern
`^([a-zA-Z0-9_]+)OPEN([^CLOSE]*End[^CLOSE]*)CLOSE` (case-insensitive on
`End`): returns the identifier and the label. -/
def end_match_one (obr cbr : Char) (ls : Str) : Option (Str × Str) :=
  let run := ls.takeWhile isWordChar
  if run.isEmpty then none
  else
    match ls.drop run.length with
    | c :: rest =>
      if c = obr then
        match findCharIdx rest cbr with
        | some k =>
          let seg := rest.take k
          if containsStr (toLowerStr seg) (str "end") then some (run, seg) else none
        | none => none
      else none
    | [] => none

/-- The End-node match of `_normalize_end_nodes` (lines 940-944): bracket,
then brace, then parenthesis shape. -/
def end_match (ls : Str) : Option (Str × Str) :=
  match end_match_one '[' ']' ls with
  | some p => some p
  | none =>
    match end_match_one '\x7b' '\x7d' ls with
    | some p => some p
    | none => end_match_one '(' ')' ls

/-- Python `label.split(None, 1)` restricted to what `get_unique_end_id`
needs: the first whitespace-separated token and the remainder (`none` when
the split yields fewer than two parts). -/
def py_split_once_ws (s : Str) : Option (Str × Str) :=
  let s1 := s.dropWhile isWsChar
  let tok := s1.takeWhile (fun c => !isWsChar c)
  let rest := (s1.drop tok.length).dropWhile isWsChar
  if tok.isEmpty then none
  else if rest.isEmpty then none
  else some (tok, rest)

/-- Label normalization of `get_unique_end_id` (lines 903-919). -/
def normalize_end_label (label : Str) : Str :=
  if startsW (toLowerStr label) (str "end") then
    if label.contains ':' then label
    else
      match py_split_once_ws label with
      | some (_, rest) => str "End: " ++ rest
      | none => str "End"
  else label

/-- Association-list lookup keyed by string equality. -/
def assoc_find (l : List (Str × Nat)) (k : Str) : Option Nat :=
  (l.find? (fun p => decide (p.1 = k))).map (·.2)

/-- Association-list update: replace in place, or append. -/
def assoc_set_nat (l : List (Str × Nat)) (k : Str) (v : Nat) : List (Str × Nat) :=
  match l with
  | [] => [(k, v)]
  | p :: t => if p.1 = k then (k, v) :: t else p :: assoc_set_nat t k v

/-- Identifier-remap update (`node_id_mapping[old_id] = new_id`): replace in
place, or append (Python dict insertion order). -/
def assoc_set_str (l : List (Str × Str)) (k : Str) (v : Str) : List (Str × Str) :=
  match l with
  | [] => [(k, v)]
  | p :: t => if p.1 = k then (k, v) :: t else p :: assoc_set_str t k v

/-- Stable insertion keeping keys ordered by decreasing length. -/
def insert_by_key_len (p : Str × Str) : List (Str × Str) → List (Str × Str)
  | [] => [p]
  | q :: t => if q.1.length > p.1.length then q :: insert_by_key_len p t else p :: q :: t

/-- `sorted(node_id_mapping.items(), key=len of key, reverse=True)` (stable). -/
def sort_by_key_len (l : List (Str × Str)) : List (Str × Str) :=
  l.foldr insert_by_key_len []

/-- Group-2 matcher of the edge-rewrite pattern
`(\s*-->|\s*\||\s*$|\]|\}|\))`: returns the consumed text and the remainder. -/
def g2match (cs : Str) : Option (Str × Str) :=
  let w := cs.takeWhile isWsChar
  let r := cs.drop w.length
  if startsW r (str "-->") then some (w ++ str "-->", r.drop 3)
  else if r.head? = some '|' then some (w ++ ['|'], r.drop 1)
  else if r.isEmpty then some (w, [])
  else if (match cs.head? with | some c => isCloserChar c | none => false) then
    some (cs.take 1, cs.drop 1)
  else none

theorem g2match_length {cs g r : Str} (h : g2match cs = some (g, r)) :
    g.length + r.length ≤ cs.length := by
  unfold g2match at h
  have hw : (cs.takeWhile isWsChar).length + (cs.drop (cs.takeWhile isWsChar).length).length = cs.length := by
    have := (List.takeWhile_prefix (l := cs) (p := isWsChar)).length_le
    simp [List.length_drop]
    omega
  simp only at h
  split at h
  · rename_i hpre
    simp only [Option.some.injEq, Prod.mk.injEq] at h
    obtain ⟨hg, hr⟩ := h
    subst hg hr
    have h3 : 3 ≤ (cs.drop (cs.takeWhile isWsChar).length).length := by
      have : (str "-->").length ≤ (cs.drop (cs.takeWhile isWsChar).length).length :=
        List.IsPrefix.length_le (List.isPrefixOf_iff_prefix.mp hpre)
      simpa [str] using this
    have hlen3 : (str "-->").length = 3 := rfl
    simp only [List.length_append, List.length_drop, hlen3] at h3 ⊢
    omega
  · split at h
    · rename_i hpipe
      simp only [Option.some.injEq, Prod.mk.injEq] at h
      obtain ⟨hg, hr⟩ := h
      subst hg hr
      have h1 : 1 ≤ (cs.drop (cs.takeWhile isWsChar).length).length := by
        cases hh : (cs.drop (cs.takeWhile isWsChar).length) with
        | nil => rw [hh] at hpipe; simp at hpipe
        | cons a t => simp [hh]
      simp only [List.length_append, List.length_drop] at *
      simp
      omega
    · split at h
      · rename_i hemp
        simp only [Option.some.injEq, Prod.mk.injEq] at h
        obtain ⟨hg, hr⟩ := h
        subst hg hr
        rw [List.isEmpty_iff] at hemp
        have := congrArg List.length hemp
        simp only [List.length_drop] at this
        simp
        omega
      · split at h
        · simp only [Option.some.injEq, Prod.mk.injEq] at h
          obtain ⟨hg, hr⟩ := h
          subst hg hr
          simp [List.length_take, List.length_drop]
          omega
        · simp at h

/-- `old` as a prefix followed by a valid group-2 match. -/
def try_ref_match (old : Str) (cs : Str) : Option (Str × Str) :=
  if old.isPrefixOf cs then g2match (cs.drop old.length) else none

theorem try_ref_match_length {old cs g r : Str} (h : try_ref_match old cs = some (g, r)) :
    g.length + r.length ≤ cs.length := by
  unfold try_ref_match at h
  split at h
  · have := g2match_length h
    simp [List.length_drop] at this
    omega
  · simp at h

/-- The edge-reference substitution
`re.sub(r'(^|\s|\[|\{|\()\bOLD\b(\s*-->|\s*\||\s*$|\]|\}|\))', r'\1NEW\2', line)`
as a left-to-right scanner.  `atStart` is true only at position 0, where the
empty `^` alternative of group 1 applies. -/
def replace_id_refs_go (old new : Str) : Nat → Bool → Str → Str
  | 0, _, cs => cs
  | fuel + 1, atStart, cs =>
    match (if atStart then try_ref_match old cs else none) with
    | some (g2, rest) => new ++ g2 ++ replace_id_refs_go old new fuel false rest
    | none =>
      match cs with
      | [] => []
      | c :: t =>
        if isWsChar c || c = '[' || c = '\x7b' || c = '(' then
          match try_ref_match old t with
          | some (g2, rest) => c :: (new ++ g2 ++ replace_id_refs_go old new fuel false rest)
          | none => c :: replace_id_refs_go old new fuel false t
        else c :: replace_id_refs_go old new fuel false t

/-- Entry point of the edge-reference substitution scanner. -/
def replace_id_refs (old new : Str) (atStart : Bool) (cs : Str) : Str :=
  replace_id_refs_go old new (cs.length + 1) atStart cs

/-- The per-edge-line loop over sorted remappings (lines 966-972). -/
def apply_mappings (ms : List (Str × Str)) (line : Str) : Str :=
  ms.foldl (fun l p => replace_id_refs p.1 p.2 true l) line

/-- State of the `_normalize_end_nodes` line scan. -/
structure EndNodesState where
  counter : List (Str × Nat)
  mapping : List (Str × Str)
  out : List Str

/-- Processing of a single line by `_normalize_end_nodes` (lines 930-975). -/
def normalize_end_nodes_line (st : EndNodesState) (line : Str) : EndNodesState :=
  let ls := stripWs line
  if ls.isEmpty || startsW ls (str "flowchart") then
    { st with out := st.out ++ [line] }
  else
    match end_match ls with
    | some (old_id, label) =>
      let normalized := normalize_end_label label
      let (st1, new_id) :=
        match assoc_find st.counter old_id with
        | none => ({ st with counter := st.counter ++ [(old_id, 0)] }, old_id)
        | some n =>
          let new_id := old_id ++ '_' :: nat_str (n + 1)
          ({ st with
              counter := assoc_set_nat st.counter old_id (n + 1)
              mapping := assoc_set_str st.mapping old_id new_id }, new_id)
      let recon :=
        if ls.contains '[' then some (str "    " ++ new_id ++ '[' :: (normalized ++ [']']))
        else if ls.contains '\x7b' then
          some (str "    " ++ new_id ++ '\x7b' :: (normalized ++ ['\x7d']))
        else if ls.contains '(' then
          some (str "    " ++ new_id ++ '(' :: (normalized ++ [')']))
        else none
      match recon with
      | some l => { st1 with out := st1.out ++ [l] }
      | none => { st1 with out := st1.out ++ [line] }
    | none =>
      if containsStr line (str "-->") then
        let sorted := sort_by_key_len st.mapping
        { st with out := st.out ++ [apply_mappings sorted line] }
      else { st with out := st.out ++ [line] }

/-- `_normalize_end_nodes` (lines 897-977). -/
def normalize_end_nodes (code : Str) : Str :=
  joinLines (((splitLines code).foldl normalize_end_nodes_line ⟨[], [], []⟩).out)

/-!  ## `_normalize_spacing`  -/

/-- Processing of a single line by `_normalize_spacing` (lines 984-1014). -/
def normalize_spacing_line (line0 : Str) : Str :=
  let line := expandTabs line0
  let st := stripWs line
  if startsW st (str "flowchart") then st
  else if st.isEmpty then []
  else if line.head? = some ' ' then
    let lead := line.length - (lstripWs line).length
    let ni := lead / 4 * 4
    let ni := if ni = 0 then 4 else ni
    spaces ni ++ st
  else spaces 4 ++ st

/-- `_normalize_spacing` (lines 979-1016). -/
def normalize_spacing (code : Str) : Str :=
  joinLines ((splitLines code).map normalize_spacing_line)

/-!  ## `_fix_mermaid_code` and `_fix_common_syntax_errors`  -/

/-- Python `s.replace(pat, rep)` for non-empty `pat`. -/
def replace_sub_go (pat rep : Str) : Nat → Str → Str
  | 0, s => s
  | _ + 1, [] => []
  | fuel + 1, c :: t =>
    if pat.isEmpty then c :: replace_sub_go pat rep fuel t
    else if pat.isPrefixOf (c :: t) then
      rep ++ replace_sub_go pat rep fuel ((c :: t).drop pat.length)
    else c :: replace_sub_go pat rep fuel t

/-- Entry point of the literal substring replacement. -/
def replace_sub (pat rep : Str) (s : Str) : Str := replace_sub_go pat rep (s.length + 1) s

/-- `_fix_mermaid_code` (lines 346-376). -/
def fix_mermaid_code (code : Str) : Str :=
  if code.isEmpty then code
  else
    let code :=
      if !startsW (stripWs code) (str "flowchart") then
        match findSubIdx (toLowerStr code) (str "flowchart") with
        | some idx => code.drop idx
        | none => str "flowchart TD\n" ++ code
      else code
    joinLines ((splitLines code).filterMap (fun line0 =>
      let line := stripWs line0
      if line.isEmpty || startsW line (str "%%") then none
      else if startsW line (str "flowchart") then some line
      else if containsStr line (str "-->") then
        some (replace_sub (str "->") (str " --> ")
          (replace_sub (str "- ->") (str " --> ")
            (replace_sub (str "-- >") (str " --> ") line)))
      else if line.contains '[' || line.contains '\x7b' || line.contains '(' then some line
      else none))

/-- `re.sub(r'([\]\}\)])\s*[^\s\-\|]', r'\1', line)` (line 1124). -/
def subCloseAnyJunk_go : Nat → Str → Str
  | 0, s => s
  | _ + 1, [] => []
  | fuel + 1, c :: t =>
    if isCloserChar c then
      let w := t.takeWhile isWsChar
      match t.drop w.length with
      | x :: r =>
        if !(x = '-' || x = '|') then c :: subCloseAnyJunk_go fuel r
        else c :: subCloseAnyJunk_go fuel t
      | [] => c :: subCloseAnyJunk_go fuel t
    else c :: subCloseAnyJunk_go fuel t

/-- Entry point of the closer-junk removal of `_fix_common_syntax_errors`. -/
def subCloseAnyJunk (s : Str) : Str := subCloseAnyJunk_go (s.length + 1) s

/-- The unmatched-opener repair of `_fix_common_syntax_errors` for one
opener/closer pair. -/
def fix_unmatched (obr cbr : Char) (af : Str → Str) (line : Str) : Str :=
  if line.contains obr && !line.contains cbr then
    match findCharIdx line obr with
    | some idx =>
      let rest := line.drop (idx + 1)
      if containsStr rest (str "-->") then
        match findSubIdx rest (str "-->") with
        | some ai =>
          line.take (idx + 1) ++ af (stripWs (rest.take ai)) ++ cbr :: rest.drop ai
        | none => line
      else line.take (idx + 1) ++ af rest ++ [cbr]
    | none => line
  else line

/-- `_fix_common_syntax_errors` (lines 1076-1128). -/
def fix_common_syntax_errors (code : Str) : Str :=
  joinLines ((splitLines code).filterMap (fun line0 =>
    let line := stripWs line0
    if line.isEmpty then none
    else if startsW line (str "flowchart") then some line
    else
      let line := fix_unmatched '[' ']' allow_filter_base line
      let line := fix_unmatched '\x7b' '\x7d' allow_filter_q line
      some (subCloseAnyJunk line)))

/-!  ## `_strip_fence` and `_extract_mermaid`  -/

/-- The line-boundary characters of Python `str.splitlines()`. -/
def isLineBreak (c : Char) : Bool :=
  c = '\n' || c = '\r' || c = '\x0b' || c = '\x0c' || c = '\x1c' || c = '\x1d'
    || c = '\x1e' || c = '\x85' || c = '\u2028' || c = '\u2029'

/-- Worker for `str.splitlines()`: split at every line boundary, consuming
`\r\n` as a single boundary; like `splitLines`, it returns at least one
(possibly empty) line. -/
def splitlines_rec : Str → List Str
  | [] => [[]]
  | [c] => if isLineBreak c then [[], []] else [[c]]
  | c :: d :: t =>
    if c = '\r' && d = '\n' then [] :: splitlines_rec t
    else if isLineBreak c then [] :: splitlines_rec (d :: t)
    else match splitlines_rec (d :: t) with
      | [] => [[c]]
      | l :: ls => (c :: l) :: ls

/-- Python `s.splitlines()`: a terminal boundary produces no trailing empty
line, and the empty string has no lines. -/
def splitlines_py (s : Str) : List Str :=
  match s.getLast? with
  | none => []
  | some c => if isLineBreak c then (splitlines_rec s).dropLast else splitlines_rec s

/-- `while lines and lines[-1].strip() == "```": lines = lines[:-1]`. -/
def drop_trailing_fence (ls : List Str) : List Str :=
  (ls.reverse.dropWhile (fun l => decide (stripWs l = str "```"))).reverse

/-- `_strip_fence` (lines 1130-1138). -/
def strip_fence (text : Str) : Str :=
  match splitlines_py text with
  | [] => text
  | l0 :: rest =>
    let lines1 := if startsW (stripWs l0) (str "```") then rest else l0 :: rest
    joinLines (drop_trailing_fence lines1)

/-- State of the `_extract_mermaid` line scan. -/
structure ExtractState where
  acc : List Str
  inF : Bool
  found : Bool
  stopped : Bool

/-- One line of the `_extract_mermaid` scan (lines 484-509), with the `break`
modelled by the `stopped` flag. -/
def extract_scan_line (st : ExtractState) (line : Str) : ExtractState :=
  if st.stopped then st
  else
    let ls := stripWs line
    if ls.isEmpty then st
    else if startsW ls (str "#") then st
    else if startsW ls (str "```") then
      if st.inF then { st with stopped := true } else st
    else if containsStr (toLowerStr ls) (str "flowchart") &&
        (containsStr ls (str "TD") || containsStr ls (str "LR") || containsStr ls (str "TB")
          || containsStr ls (str "BT") || containsStr ls (str "RL")) then
      { acc := st.acc ++ [ls], inF := true, found := true, stopped := false }
    else if st.inF then { st with acc := st.acc ++ [ls] }
    else st

/-- `_extract_mermaid` (lines 468-536). -/
def extract_mermaid (text : Str) : Str :=
  if text.isEmpty then []
  else
    let cleaned := stripWs text
    let cleaned := if startsW cleaned (str "```") then strip_fence cleaned else cleaned
    let cleaned := stripWs cleaned
    let st := (splitLines cleaned).foldl extract_scan_line ⟨[], false, false, false⟩
    let fl := st.acc
    let fl :=
      if fl.isEmpty then
        match findSubIdx (toLowerStr cleaned) (str "flowchart") with
        | some idx =>
          (splitLines (cleaned.drop idx)).filterMap (fun rl =>
            let rs := stripWs rl
            if !rs.isEmpty && !startsW rs (str "#") && !startsW rs (str "```") then some rs
            else none)
        | none => []
      else fl
    if fl.isEmpty then []
    else
      let cleaned2 := joinLines fl
      let cleaned3 :=
        if !startsW (stripWs cleaned2) (str "flowchart") then
          match findSubIdx (toLowerStr cleaned2) (str "flowchart") with
          | some idx => cleaned2.drop idx
          | none => cleaned2
        else cleaned2
      if (check_syntax_errors cleaned3).isEmpty then cleaned3
      else sanitize_mermaid cleaned3

/-!  ## `_generate_mermaid` and `process`  -/

/-- The repair pipeline applied to a non-empty extraction result
(`_generate_mermaid`, lines 271-324). -/
def pipeline_after_extract (description mermaid_code : Str) : Str :=
  let mc :=
    if !startsW mermaid_code (str "flowchart") then str "flowchart TD\n" ++ mermaid_code
    else mermaid_code
  let mc := wrap_special_labels mc
  if (check_syntax_errors mc).isEmpty && validate_mermaid mc then
    let mc := normalize_spacing (normalize_flowchart_header mc)
    if !validate_mermaid mc then generate_fallback_flowchart description else mc
  else
    let mc := sanitize_mermaid mc
    let mc := remove_duplicate_nodes mc
    let mc := if !validate_mermaid mc then sanitize_mermaid (fix_mermaid_code mc) else mc
    let mc := if !(check_syntax_errors mc).isEmpty then
        sanitize_mermaid (fix_common_syntax_errors mc)
      else mc
    let mc := final_cleanup mc
    let mc := normalize_flowchart_header mc
    let mc := normalize_end_nodes mc
    let mc := normalize_spacing mc
    if !validate_mermaid mc then generate_fallback_flowchart description else mc

/-- `_resolve_mode` (lines 459-466), as the resolved mode name. -/
def resolve_mode (level : Str) : Option Str :=
  let key := toLowerStr (stripWs level)
  if key = str "basic" || key = str "intermediate" || key = str "advanced" then some key
  else if key = str "1" then some (str "basic")
  else if key = str "2" then some (str "intermediate")
  else if key = str "3" then some (str "advanced")
  else none

/-- `_generate_mermaid` (lines 183-329).  The call to the text-generation
collaborator is a parameter: `Except.error` models the call raising, and
`Except.ok` its returned text.  The returned `Except.error` models the
`ValueError`s raised before the `try` block. -/
def generate_mermaid (hasModel : Bool) (description level : Str)
    (genResult : Except Str Str) : Except Str Str :=
  if !hasModel then .error (str "Gemini API key required")
  else
    let d := stripWs description
    if d.isEmpty then .error (str "Process description cannot be empty")
    else
      match resolve_mode level with
      | none => .error (str "Level must be 1, 2, 3, or a known mode name")
      | some _ =>
        match genResult with
        | .error _ => .ok (generate_fallback_flowchart d)
        | .ok full =>
          let mc := extract_mermaid full
          if mc.isEmpty then .ok (generate_fallback_flowchart d)
          else .ok (pipeline_after_extract d mc)

/-- `AgentStatus` from `base_agent.py`. -/
inductive AgentStatus where
  | idle
  | processing
  | success
  | error
deriving DecidableEq

/-- The `result` dict built by `FlowchartAgent.process` on success. -/
structure FlowResult where
  mermaid_code : Str
  level : Str
  files : List (Str × Str)
deriving DecidableEq

/-- The fields of `AgentResponse` that `process` populates. -/
structure AgentResponse where
  status : AgentStatus
  result : Option FlowResult
  error : Option Str
deriving DecidableEq

/-- A request dict: `description`/`level`/`output_format` as optional fields. -/
structure FlowRequest where
  description : Option Str
  level : Option Str
  output_format : Option Str

/-- `FlowchartAgent.process` (lines 139-181).  `saveResult` models the outcome
of `_save_outputs` (file I/O), used only when saving is requested. -/
def process (hasModel save_to_file : Bool) (default_level : Str) (req : FlowRequest)
    (genResult : Except Str Str) (saveResult : Except Str (List (Str × Str))) :
    AgentResponse :=
  match req.description with
  | none => ⟨.error, none, some (str "Missing required fields: description")⟩
  | some desc =>
    let level := req.level.getD default_level
    let ofmt := req.output_format.getD (str "mermaid")
    match generate_mermaid hasModel desc level genResult with
    | .error e => ⟨.error, none, some e⟩
    | .ok code =>
      if save_to_file || ofmt = str "png" || ofmt = str "both" then
        match saveResult with
        | .error e => ⟨.error, none, some e⟩
        | .ok paths => ⟨.success, some ⟨code, level, paths⟩, none⟩
      else ⟨.success, some ⟨code, level, []⟩, none⟩

/-!  ## General lemmas about the string primitives  -/

theorem containsStr_iff {s p : Str} : containsStr s p = true ↔ p <:+: s := by
  induction s with
  | nil =>
    simp only [containsStr, List.isEmpty_iff, List.infix_nil]
  | cons c t ih =>
    simp only [containsStr, Bool.or_eq_true, ih]
    rw [List.infix_cons_iff]
    constructor
    · rintro (h | h)
      · exact Or.inl (List.isPrefixOf_iff_prefix.mp h)
      · exact Or.inr h
    · rintro (h | h)
      · exact Or.inl (List.isPrefixOf_iff_prefix.mpr h)
      · exact Or.inr h

theorem containsStr_eq_false_iff {s p : Str} : containsStr s p = false ↔ ¬p <:+: s := by
  rw [← containsStr_iff]
  cases containsStr s p <;> simp

theorem findSubIdx_eq_none {s p : Str} (h : containsStr s p = false) :
    findSubIdx s p = none := by
  induction s with
  | nil =>
    simp [containsStr, List.isEmpty_iff] at h
    simp [findSubIdx, List.isEmpty_iff, h]
  | cons c t ih =>
    simp only [containsStr, Bool.or_eq_false_iff] at h
    simp [findSubIdx, h.1, ih h.2]

theorem splitLines_ne_nil (s : Str) : splitLines s ≠ [] := by
  cases s with
  | nil => simp [splitLines]
  | cons c t =>
    simp only [splitLines]
    split
    · simp
    · cases hs : splitLines t <;> simp

theorem splitLines_head_prefixOf {s l0 : Str} {ls : List Str}
    (h : splitLines s = l0 :: ls) : l0 <+: s := by
  induction s generalizing l0 ls with
  | nil =>
    simp [splitLines] at h
    simp [h.1]
  | cons c t ih =>
    simp only [splitLines] at h
    split at h
    · rename_i hc
      simp only [List.cons.injEq] at h
      rw [← h.1]
      exact List.nil_prefix
    · cases hs : splitLines t with
      | nil => exact absurd hs (splitLines_ne_nil t)
      | cons m ms =>
        rw [hs] at h
        simp only [List.cons.injEq] at h
        rw [← h.1]
        exact List.cons_prefix_cons.mpr ⟨rfl, ih hs⟩

theorem mem_splitLines_infixOf {s l : Str} (h : l ∈ splitLines s) : l <:+: s := by
  induction s generalizing l with
  | nil =>
    simp [splitLines] at h
    simp [h]
  | cons c t ih =>
    simp only [splitLines] at h
    split at h
    · rcases List.mem_cons.mp h with h | h
      · simp [h]
      · exact (ih h).trans (List.infix_cons (List.infix_refl t))
    · cases hs : splitLines t with
      | nil => exact absurd hs (splitLines_ne_nil t)
      | cons m ms =>
        rw [hs] at h
        rcases List.mem_cons.mp h with h | h
        · subst h
          exact (List.cons_prefix_cons.mpr ⟨rfl, splitLines_head_prefixOf hs⟩).isInfix
        · have : l ∈ splitLines t := hs ▸ List.mem_cons_of_mem m h
          exact (ih this).trans (List.infix_cons (List.infix_refl t))

theorem mem_splitLines_no_newline {s l : Str} (h : l ∈ splitLines s) : '\n' ∉ l := by
  induction s generalizing l with
  | nil =>
    simp [splitLines] at h
    simp [h]
  | cons c t ih =>
    simp only [splitLines] at h
    split at h
    · rcases List.mem_cons.mp h with h | h
      · simp [h]
      · exact ih h
    · cases hs : splitLines t with
      | nil => exact absurd hs (splitLines_ne_nil t)
      | cons m ms =>
        rw [hs] at h
        rcases List.mem_cons.mp h with h | h
        · subst h
          rename_i hc
          intro hmem
          rcases List.mem_cons.mp hmem with h2 | h2
          · exact hc h2.symm
          · exact ih (hs ▸ List.mem_cons_self m ms) h2
        · exact ih (hs ▸ List.mem_cons_of_mem m h)

theorem splitLines_of_no_newline {s : Str} (h : '\n' ∉ s) : splitLines s = [s] := by
  induction s with
  | nil => simp [splitLines]
  | cons c t ih =>
    simp only [splitLines]
    rw [if_neg (by intro hc; exact h (hc ▸ List.mem_cons_self c t))]
    rw [ih (fun hm => h (List.mem_cons_of_mem c hm))]

theorem joinLines_cons (l : Str) (ls : List Str) (h : ls ≠ []) :
    joinLines (l :: ls) = l ++ '\n' :: joinLines ls := by
  cases ls with
  | nil => simp at h
  | cons m ms =>
    simp [joinLines, List.intercalate, List.intersperse_cons_cons]

theorem splitLines_append_newline (l : Str) (hnl : '\n' ∉ l) (rest : Str) :
    splitLines (l ++ '\n' :: rest) = l :: splitLines rest := by
  induction l with
  | nil => simp [splitLines]
  | cons c t ih =>
    have hc : c ≠ '\n' := fun h => hnl (h ▸ List.mem_cons_self c t)
    simp only [List.cons_append, splitLines, if_neg hc, List.append_eq]
    rw [ih (fun hm => hnl (List.mem_cons_of_mem c hm))]

theorem splitLines_joinLines {ls : List Str} (hne : ls ≠ [])
    (hnl : ∀ l ∈ ls, '\n' ∉ l) : splitLines (joinLines ls) = ls := by
  induction ls with
  | nil => simp at hne
  | cons l ms ih =>
    cases ms with
    | nil =>
      simp [joinLines, List.intercalate]
      exact splitLines_of_no_newline (hnl l (List.mem_cons_self l []))
    | cons m ms2 =>
      rw [joinLines_cons l (m :: ms2) (by simp)]
      rw [splitLines_append_newline l (hnl l (List.mem_cons_self _ _))]
      rw [ih (by simp) (fun x hx => hnl x (List.mem_cons_of_mem l hx))]

theorem lstripWs_infixOf (s : Str) : lstripWs s <:+: s :=
  (List.dropWhile_suffix isWsChar).isInfix

theorem rstripWs_prefixOf (s : Str) : rstripWs s <+: s := by
  have h := List.dropWhile_suffix (l := s.reverse) isWsChar
  rw [← List.reverse_prefix] at h
  simpa [rstripWs] using h

theorem stripWs_infixOf (s : Str) : stripWs s <:+: s :=
  ((rstripWs_prefixOf (lstripWs s)).isInfix).trans (lstripWs_infixOf s)

theorem head_lstripWs_not_ws {s : Str} {c : Char} (h : (lstripWs s).head? = some c) :
    isWsChar c = false := by
  induction s with
  | nil => simp [lstripWs] at h
  | cons a t ih =>
    by_cases ha : isWsChar a
    · rw [lstripWs, List.dropWhile_cons_of_pos ha] at h
      exact ih h
    · rw [lstripWs, List.dropWhile_cons_of_neg ha] at h
      simp at h
      subst h
      simpa using ha

theorem head_stripWs_not_ws {s : Str} {c : Char} (h : (stripWs s).head? = some c) :
    isWsChar c = false := by
  have hpre := rstripWs_prefixOf (lstripWs s)
  cases hl : (lstripWs s) with
  | nil =>
    rw [stripWs, hl] at h
    simp [rstripWs] at h
  | cons a t =>
    have ha : isWsChar a = false := head_lstripWs_not_ws (by rw [hl]; rfl)
    rw [stripWs, hl] at h
    cases hr : rstripWs (a :: t) with
    | nil => rw [hr] at h; simp at h
    | cons b r =>
      rw [hr] at h
      simp at h
      rw [hl, hr] at hpre
      obtain ⟨u, hu⟩ := hpre
      simp at hu
      rw [← h]
      rw [hu.1]
      exact ha

theorem getLast_rstripWs_not_ws {s : Str} {c : Char} (h : (rstripWs s).getLast? = some c) :
    isWsChar c = false := by
  rw [rstripWs, List.getLast?_reverse] at h
  exact head_lstripWs_not_ws h

theorem getLast_stripWs_not_ws {s : Str} {c : Char} (h : (stripWs s).getLast? = some c) :
    isWsChar c = false := getLast_rstripWs_not_ws h

theorem lstripWs_cons_of_not_ws {c : Char} {t : Str} (h : isWsChar c = false) :
    lstripWs (c :: t) = c :: t := by
  rw [lstripWs, List.dropWhile_cons_of_neg (by rw [h]; simp)]

theorem rstripWs_eq_self {s : Str} (h : ∀ c, s.getLast? = some c → isWsChar c = false) :
    rstripWs s = s := by
  cases hs : s.reverse with
  | nil =>
    have : s = [] := by simpa using congrArg List.reverse hs
    simp [this, rstripWs]
  | cons a t =>
    have ha : s.getLast? = some a := by
      rw [← List.head?_reverse, hs]; rfl
    rw [rstripWs, hs, List.dropWhile_cons_of_neg (by simp [h a ha])]
    rw [← hs, List.reverse_reverse]

theorem stripWs_eq_self {s : Str}
    (hh : ∀ c, s.head? = some c → isWsChar c = false)
    (hl : ∀ c, s.getLast? = some c → isWsChar c = false) :
    stripWs s = s := by
  cases s with
  | nil => rfl
  | cons a t =>
    rw [stripWs, lstripWs_cons_of_not_ws (hh a rfl)]
    exact rstripWs_eq_self hl

theorem lstripWs_spaces_append (n : Nat) (t : Str) :
    lstripWs (spaces n ++ t) = lstripWs t := by
  induction n with
  | zero => simp [spaces]
  | succ k ih =>
    simp only [spaces, List.replicate_succ, List.cons_append]
    rw [lstripWs, List.dropWhile_cons_of_pos (by simp [isWsChar])]
    exact ih

theorem stripWs_spaces_append {t : Str} (n : Nat)
    (hh : ∀ c, t.head? = some c → isWsChar c = false)
    (hl : ∀ c, t.getLast? = some c → isWsChar c = false) :
    stripWs (spaces n ++ t) = t := by
  rw [stripWs, lstripWs_spaces_append]
  cases t with
  | nil => simp [lstripWs, rstripWs]
  | cons a r =>
    rw [lstripWs_cons_of_not_ws (hh a rfl)]
    exact rstripWs_eq_self hl

theorem stripWs_idem (s : Str) : stripWs (stripWs s) = stripWs s := by
  cases hs : stripWs s with
  | nil => rfl
  | cons a t =>
    rw [← hs]
    apply stripWs_eq_self
    · intro c hc; exact head_stripWs_not_ws hc
    · intro c hc; exact getLast_stripWs_not_ws hc

theorem expandTabs_eq_self {s : Str} (h : '\t' ∉ s) : expandTabs s = s := by
  induction s with
  | nil => rfl
  | cons c t ih =>
    have hc : c ≠ '\t' := fun hh => h (hh ▸ List.mem_cons_self c t)
    rw [expandTabs, if_neg hc, ih (fun hm => h (List.mem_cons_of_mem c hm))]

theorem mem_expandTabs {s : Str} {c : Char} (h : c ∈ expandTabs s) :
    c = ' ' ∨ c ∈ s := by
  induction s with
  | nil => simp [expandTabs] at h
  | cons a t ih =>
    rw [expandTabs] at h
    split at h
    · simp only [List.mem_cons] at h
      rcases h with h | h | h | h | h
      · exact Or.inl h
      · exact Or.inl h
      · exact Or.inl h
      · exact Or.inl h
      · rcases ih h with h2 | h2
        · exact Or.inl h2
        · exact Or.inr (List.mem_cons_of_mem a h2)
    · rcases List.mem_cons.mp h with h | h
      · exact Or.inr (by rw [h]; exact List.mem_cons_self a t)
      · rcases ih h with h2 | h2
        · exact Or.inl h2
        · exact Or.inr (List.mem_cons_of_mem a h2)

theorem no_tab_expandTabs (s : Str) : '\t' ∉ expandTabs s := by
  induction s with
  | nil => simp [expandTabs]
  | cons c t ih =>
    rw [expandTabs]
    split
    · intro h
      simp only [List.mem_cons] at h
      rcases h with h | h | h | h | h
      · simp at h
      · simp at h
      · simp at h
      · simp at h
      · exact ih h
    · rename_i hc
      intro h
      rcases List.mem_cons.mp h with h | h
      · exact hc h.symm
      · exact ih h

/-!  ## Claim C3: the minimal-touch path  -/

/-- Claim C3 (counterexample): an extracted text on which the syntax check
reports no errors and the heuristic validator reports validity does NOT keep
every label unchanged: the pipeline also applies special-character quote
wrapping before the check, so the label `Hello, world` acquires surrounding
double quotes on the minimal-touch path. -/
theorem c3_minimal_touch_alters_labels :
    check_syntax_errors (str "flowchart TD\n    A[Hello, world] --> B[Done]\n    B --> C[Fin]") = []
    ∧ validate_mermaid (str "flowchart TD\n    A[Hello, world] --> B[Done]\n    B --> C[Fin]") = true
    ∧ pipeline_after_extract (str "x")
        (str "flowchart TD\n    A[Hello, world] --> B[Done]\n    B --> C[Fin]")
      = str "flowchart TD\n    A[\"Hello, world\"] --> B[Done]\n    B --> C[Fin]"
    ∧ containsStr (pipeline_after_extract (str "x")
        (str "flowchart TD\n    A[Hello, world] --> B[Done]\n    B --> C[Fin]"))
        (str "A[Hello, world]") = false := by
  refine ⟨by decide, by decide, by decide, by decide⟩

/-- Claim C3 (amended): on an extracted text that starts with the header and
whose quote-wrapped form passes the syntax check and the heuristic validator
(and still validates after header and spacing normalization), the pipeline
returns exactly the composition of special-character quote wrapping, header
normalization, and spacing normalization — no sanitizer pass runs. -/
theorem c3_minimal_touch_path (desc code : Str)
    (h0 : startsW code (str "flowchart") = true)
    (h1 : check_syntax_errors (wrap_special_labels code) = [])
    (h2 : validate_mermaid (wrap_special_labels code) = true)
    (h3 : validate_mermaid
      (normalize_spacing (normalize_flowchart_header (wrap_special_labels code))) = true) :
    pipeline_after_extract desc code =
      normalize_spacing (normalize_flowchart_header (wrap_special_labels code)) := by
  unfold pipeline_after_extract
  simp [h0, h1, h2, h3]

/-- Witness for `c3_minimal_touch_path` at a concrete valid document. -/
theorem c3_minimal_touch_path_witness :
    pipeline_after_extract (str "x")
        (str "flowchart TD\n    A[One] --> B[Two]\n    B --> C[Three]") =
      normalize_spacing (normalize_flowchart_header (wrap_special_labels
        (str "flowchart TD\n    A[One] --> B[Two]\n    B --> C[Three]"))) :=
  c3_minimal_touch_path _ _ (by decide) (by decide) (by decide) (by decide)

/-!  ## Claim C5: spacing normalization  -/

/-- Claim C5 (counterexample): a line indented with eight spaces keeps its
eight spaces — `_normalize_spacing` does not force indentation to exactly
four spaces. -/
theorem c5_spacing_keeps_eight_spaces :
    normalize_spacing (str "flowchart TD\n        A --> B")
      = str "flowchart TD\n        A --> B"
    ∧ leadingSpaces ((splitLines
        (normalize_spacing (str "flowchart TD\n        A --> B"))).getD 1 []) = 8 := by
  refine ⟨by decide, by decide⟩

/-!  ## Claim C6: empty labels after sanitizing  -/

/-- Claim C6 (counterexample): the allow-list character removal runs after the
placeholder check inside `sanitize_node`, so a label consisting only of
disallowed characters still produces an empty bracket pair, which survives
`_final_cleanup`. -/
theorem c6_sanitizer_empty_bracket_pair :
    final_cleanup (sanitize_mermaid (str "flowchart TD\n    A[???] --> B[Ok]"))
      = str "flowchart TD\n    A[] --> B[Ok]"
    ∧ containsStr (final_cleanup (sanitize_mermaid
        (str "flowchart TD\n    A[???] --> B[Ok]"))) (str "[]") = true := by
  refine ⟨by decide, by decide⟩

/-- Claim C6 (amended): `clean_label` itself never returns an empty label on a
non-empty input — the placeholder is substituted at that stage; the empty
bracket pairs of the counterexample arise only from the allow-list removal
applied after this check. -/
theorem c6_clean_label_nonempty (s : Str) (h : s ≠ []) : clean_label s ≠ [] := by
  unfold clean_label
  have h1 : s.isEmpty = false := by
    cases s with
    | nil => exact absurd rfl h
    | cons c t => rfl
  rw [h1]
  simp only [Bool.false_eq_true, if_false]
  split
  · intro hcon
    have : (str "Label").length = 0 := by rw [hcon]; rfl
    simp [str] at this
  · rename_i ht
    simpa [List.isEmpty_iff] using ht

/-- Witness for `c6_clean_label_nonempty`. -/
theorem c6_clean_label_nonempty_witness : clean_label (str " - ") ≠ [] :=
  c6_clean_label_nonempty (str " - ") (by decide)

/-!  ## Claim C7: the syntax check after closing delimiters  -/

/-- Claim C7 (counterexample): a non-whitespace character immediately after a
closing parenthesis is NOT reported — `_check_syntax_errors` only checks
closing brackets and braces, and only on lines containing an arrow. -/
theorem c7_paren_violation_unreported :
    check_syntax_errors (str "flowchart TD\n    A(Start)x --> B\n    B --> C") = []
    ∧ has_close_viol ')' (stripWs (str "    A(Start)x --> B")) = true
    ∧ containsStr (stripWs (str "    A(Start)x --> B")) (str "-->") = true := by
  refine ⟨by decide, by decide, by decide⟩

/-!  ## Claim C8: the minimal fallback chain  -/

/-- Claim C8 (counterexample): with zero usable steps the generic fallback path
emits a FOUR-node chain `Start → <topic> → Process → End`, not a three-node
chain. -/
theorem c8_fallback_four_node_chain :
    generate_fallback_flowchart (str "#")
      = str "flowchart TD\n    A[Start]\n    B[#]\n    C[Process]\n    D[End]\n    A --> B\n    B --> C\n    C --> D"
    ∧ ((splitLines (generate_fallback_flowchart (str "#"))).filter
        (fun l => l.contains '[')).length = 4 := by
  refine ⟨by decide, by decide⟩

/-- Claim C8 (amended): for every description outside the canned-template
domains from which no usable step can be split, the generic fallback path
emits the four-node linear chain
`Start → <first 40 characters of the description> → Process → End`. -/
theorem c8_generic_fallback_shape (d : Str)
    (h1 : (containsStr (toLowerStr d) (str "notification") &&
      (containsStr (toLowerStr d) (str "discord") || containsStr (toLowerStr d) (str "mobile")
        || containsStr (toLowerStr d) (str "app"))) = false)
    (h2 : (containsStr (toLowerStr d) (str "login")
        || containsStr (toLowerStr d) (str "auth")) = false)
    (hs : fallback_steps d = []) :
    generate_fallback_flowchart d =
      str "flowchart TD\n    A[Start]\n    B[" ++ clean_step (d.take 40)
        ++ str "]\n    C[Process]\n    D[End]\n    A --> B\n    B --> C\n    C --> D" := by
  unfold generate_fallback_flowchart
  simp only [h1, h2, hs, Bool.false_eq_true, if_false, List.isEmpty_nil, if_true]
  have hc : clean_step ['S', 't', 'a', 'r', 't'] = ['S', 't', 'a', 'r', 't'] := by decide
  have hc2 : clean_step ['P', 'r', 'o', 'c', 'e', 's', 's']
      = ['P', 'r', 'o', 'c', 'e', 's', 's'] := by decide
  have hc3 : clean_step ['E', 'n', 'd'] = ['E', 'n', 'd'] := by decide
  have hA : Char.ofNat 65 = 'A' := by decide
  have hB : Char.ofNat 66 = 'B' := by decide
  have hC : Char.ofNat 67 = 'C' := by decide
  have hD : Char.ofNat 68 = 'D' := by decide
  simp [fallback_node_line, fallback_conn_line, joinLines, List.intercalate,
    List.intersperse, chr65, hc, hc2, hc3, hA, hB, hC, hD, str]

/-- Witness for `c8_generic_fallback_shape` at a comment-only description. -/
theorem c8_generic_fallback_shape_witness :
    generate_fallback_flowchart (str "# plan")
      = str "flowchart TD\n    A[Start]\n    B[" ++ clean_step ((str "# plan").take 40)
        ++ str "]\n    C[Process]\n    D[End]\n    A --> B\n    B --> C\n    C --> D" :=
  c8_generic_fallback_shape (str "# plan") (by decide) (by decide) (by decide)

theorem splitLines_eq_splitOn (s : Str) : splitLines s = s.splitOn '\n' := by
  induction s with
  | nil => rfl
  | cons c t ih =>
    simp only [splitLines, List.splitOn, List.splitOnP_cons] at *
    by_cases hc : c = '\n'
    · simp [hc, ih]
    · rw [if_neg hc, ih]
      rw [if_neg (by simpa using hc)]
      cases ht : t.splitOn '\n' with
      | nil => exact absurd ht (List.splitOnP_ne_nil _ t)
      | cons m ms => simp [List.splitOn] at ht; rw [ht]; rfl

theorem joinLines_splitLines (s : Str) : joinLines (splitLines s) = s := by
  rw [splitLines_eq_splitOn, joinLines]
  exact List.intercalate_splitOn s '\n'

theorem joinLines_prefix_mono {l1 l2 : List Str} (h : l1 <+: l2) :
    joinLines l1 <+: joinLines l2 := by
  induction l2 generalizing l1 with
  | nil =>
    rw [List.prefix_nil.mp h]
  | cons a t ih =>
    cases l1 with
    | nil => simp [joinLines, List.intercalate]
    | cons b t1 =>
      obtain ⟨rest, hrest⟩ := h
      simp only [List.cons_append, List.cons.injEq] at hrest
      obtain ⟨hb, ht⟩ := hrest
      have ht1 : t1 <+: t := ⟨rest, ht⟩
      cases t1 with
      | nil =>
        cases t with
        | nil =>
          rw [hb]
        | cons u us =>
          rw [hb, joinLines_cons a (u :: us) (by simp)]
          simp [joinLines, List.intercalate]
      | cons v vs =>
        cases t with
        | nil => simp at ht
        | cons u us =>
          rw [hb, joinLines_cons a (v :: vs) (by simp), joinLines_cons a (u :: us) (by simp)]
          obtain ⟨r, hr⟩ := ih ht1
          exact ⟨r, by simp [List.append_assoc, ← hr]⟩

theorem joinLines_dropLast_prefixOf (ls : List Str) : joinLines ls.dropLast <+: joinLines ls := by
  apply joinLines_prefix_mono
  exact List.dropLast_prefix ls

theorem reverse_dropWhile_reverse_prefixOf {α : Type} (p : α → Bool) (l : List α) :
    (l.reverse.dropWhile p).reverse <+: l := by
  have h := List.dropWhile_suffix (l := l.reverse) p
  rw [← List.reverse_prefix] at h
  simpa using h

theorem containsStr_mono {y z p : Str} (h : containsStr y p = true) (hin : y <:+: z) :
    containsStr z p = true :=
  containsStr_iff.mpr ((containsStr_iff.mp h).trans hin)

theorem toLowerStr_infix_mono {y z : Str} (h : y <:+: z) :
    toLowerStr y <:+: toLowerStr z := h.map Char.toLower

theorem line_lower_contains {text l : Str}
    (hnf : containsStr (toLowerStr text) (str "flowchart") = false)
    (hin : l <:+: text) :
    containsStr (toLowerStr (stripWs l)) (str "flowchart") = false := by
  by_contra hc
  rw [Bool.not_eq_false] at hc
  have h1 : toLowerStr (stripWs l) <:+: toLowerStr text :=
    toLowerStr_infix_mono ((stripWs_infixOf l).trans hin)
  rw [containsStr_mono hc h1] at hnf
  exact Bool.true_eq_false.mp hnf

theorem lower_contains_false_mono {y z p : Str}
    (h : containsStr (toLowerStr z) p = false) (hin : y <:+: z) :
    containsStr (toLowerStr y) p = false := by
  by_contra hc
  rw [Bool.not_eq_false] at hc
  rw [containsStr_mono hc (toLowerStr_infix_mono hin)] at h
  exact Bool.true_eq_false.mp h

theorem splitlines_rec_head_prefixOf : ∀ {s m : Str} {ms : List Str},
    splitlines_rec s = m :: ms → m <+: s := by
  intro s
  induction s using splitlines_rec.induct with
  | case1 =>
    intro m ms h
    rw [splitlines_rec] at h
    cases h
    exact List.prefix_refl []
  | case2 c hbr =>
    intro m ms h
    rw [splitlines_rec, if_pos hbr] at h
    cases h
    exact List.nil_prefix
  | case3 c hbr =>
    intro m ms h
    rw [splitlines_rec, if_neg hbr] at h
    cases h
    exact List.prefix_refl _
  | case4 c d t hcd ih =>
    intro m ms h
    rw [splitlines_rec, if_pos hcd] at h
    cases h
    exact List.nil_prefix
  | case5 c d t hcd hbr ih =>
    intro m ms h
    rw [splitlines_rec, if_neg hcd, if_pos hbr] at h
    cases h
    exact List.nil_prefix
  | case6 c d t hcd hbr hrec ih =>
    intro m ms h
    rw [splitlines_rec, if_neg hcd, if_neg hbr, hrec] at h
    cases h
    exact List.cons_prefix_cons.mpr ⟨rfl, List.nil_prefix⟩
  | case7 c d t hcd hbr lh ls hrec ih =>
    intro m ms h
    rw [splitlines_rec, if_neg hcd, if_neg hbr, hrec] at h
    cases h
    exact List.cons_prefix_cons.mpr ⟨rfl, ih hrec⟩

theorem mem_splitlines_rec_infixOf : ∀ {s l : Str},
    l ∈ splitlines_rec s → l <:+: s := by
  intro s
  induction s using splitlines_rec.induct with
  | case1 =>
    intro l h
    rw [splitlines_rec] at h
    rcases List.mem_cons.mp h with h | h
    · simp [h]
    · simp at h
  | case2 c hbr =>
    intro l h
    rw [splitlines_rec, if_pos hbr] at h
    rcases List.mem_cons.mp h with h | h
    · simp [h]
    · rcases List.mem_cons.mp h with h | h
      · simp [h]
      · simp at h
  | case3 c hbr =>
    intro l h
    rw [splitlines_rec, if_neg hbr] at h
    rcases List.mem_cons.mp h with h | h
    · simp [h]
    · simp at h
  | case4 c d t hcd ih =>
    intro l h
    rw [splitlines_rec, if_pos hcd] at h
    rcases List.mem_cons.mp h with h | h
    · simp [h]
    · exact ((ih h).trans (List.infix_cons (List.infix_refl t))).trans
        (List.infix_cons (List.infix_refl _))
  | case5 c d t hcd hbr ih =>
    intro l h
    rw [splitlines_rec, if_neg hcd, if_pos hbr] at h
    rcases List.mem_cons.mp h with h | h
    · simp [h]
    · exact (ih h).trans (List.infix_cons (List.infix_refl _))
  | case6 c d t hcd hbr hrec ih =>
    intro l h
    rw [splitlines_rec, if_neg hcd, if_neg hbr, hrec] at h
    rcases List.mem_cons.mp h with h | h
    · subst h
      exact (List.cons_prefix_cons.mpr ⟨rfl, List.nil_prefix⟩).isInfix
    · simp at h
  | case7 c d t hcd hbr lh ls hrec ih =>
    intro l h
    rw [splitlines_rec, if_neg hcd, if_neg hbr, hrec] at h
    rcases List.mem_cons.mp h with h | h
    · subst h
      exact (List.cons_prefix_cons.mpr
        ⟨rfl, splitlines_rec_head_prefixOf hrec⟩).isInfix
    · have hmem : l ∈ splitlines_rec (d :: t) := by
        rw [hrec]
        exact List.mem_cons_of_mem _ h
      exact (ih hmem).trans (List.infix_cons (List.infix_refl _))

theorem mem_splitlines_py_infixOf {s l : Str} (h : l ∈ splitlines_py s) :
    l <:+: s := by
  unfold splitlines_py at h
  split at h
  · simp at h
  · split at h
    · exact mem_splitlines_rec_infixOf ((List.dropLast_prefix _).subset h)
    · exact mem_splitlines_rec_infixOf h

theorem toLowerStr_joinLines (ls : List Str) :
    toLowerStr (joinLines ls) = joinLines (ls.map toLowerStr) := by
  induction ls with
  | nil => rfl
  | cons a r ih =>
    cases hr : r with
    | nil =>
      subst hr
      have h1 : joinLines [a] = a := by simp [joinLines, List.intercalate]
      have h2 : joinLines [toLowerStr a] = toLowerStr a := by
        simp [joinLines, List.intercalate]
      rw [List.map_cons, List.map_nil, h1, h2]
    | cons b q =>
      subst hr
      rw [joinLines_cons a (b :: q) (by simp), List.map_cons,
        joinLines_cons (toLowerStr a) ((b :: q).map toLowerStr) (by simp)]
      rw [toLowerStr, List.map_append, List.map_cons]
      rw [show Char.toLower '\n' = '\n' from rfl]
      rw [← toLowerStr, ← toLowerStr, ih]

theorem prefix_no_newline_left : ∀ {q x rest : Str}, '\n' ∉ q →
    q <+: x ++ '\n' :: rest → q <+: x := by
  intro q
  induction q with
  | nil =>
    intro x rest _ _
    exact List.nil_prefix
  | cons e q' ih =>
    intro x rest hnl h
    cases x with
    | nil =>
      rcases List.cons_prefix_cons.mp h with ⟨he, _⟩
      exact absurd (he ▸ List.mem_cons_self e q') hnl
    | cons f x' =>
      rcases List.cons_prefix_cons.mp h with ⟨he, hq⟩
      exact List.cons_prefix_cons.mpr
        ⟨he, ih (fun hm => hnl (List.mem_cons_of_mem e hm)) hq⟩

theorem infix_append_cons_split : ∀ {p x rest : Str}, '\n' ∉ p →
    p <:+: x ++ '\n' :: rest → p <:+: x ∨ p <:+: rest := by
  intro p x
  induction x with
  | nil =>
    intro rest hnl h
    rw [List.nil_append] at h
    rcases List.infix_cons_iff.mp h with h | h
    · cases p with
      | nil => exact Or.inl (List.infix_refl [])
      | cons d q =>
        rcases List.cons_prefix_cons.mp h with ⟨hd, _⟩
        exact absurd (hd ▸ List.mem_cons_self d q) hnl
    · exact Or.inr h
  | cons c x' ih =>
    intro rest hnl h
    rw [List.cons_append] at h
    rcases List.infix_cons_iff.mp h with h | h
    · cases p with
      | nil => exact Or.inl ⟨[], c :: x', by simp⟩
      | cons d q =>
        rcases List.cons_prefix_cons.mp h with ⟨hd, hq⟩
        have hq' : q <+: x' :=
          prefix_no_newline_left (fun hm => hnl (List.mem_cons_of_mem d hm)) hq
        exact Or.inl (hd ▸ (List.cons_prefix_cons.mpr ⟨rfl, hq'⟩).isInfix)
    · rcases ih hnl h with h | h
      · exact Or.inl (h.trans (List.infix_cons (List.infix_refl x')))
      · exact Or.inr h

theorem infix_joinLines_mem : ∀ {ls : List Str} {p : Str}, '\n' ∉ p → p ≠ [] →
    p <:+: joinLines ls → ∃ l ∈ ls, p <:+: l := by
  intro ls
  induction ls with
  | nil =>
    intro p _ hne h
    have : p = [] := by
      have := h.sublist.length_le
      have hj : joinLines ([] : List Str) = [] := rfl
      rw [hj] at this
      simp at this
      exact this
    exact absurd this hne
  | cons a r ih =>
    intro p hnl hne h
    cases hr : r with
    | nil =>
      subst hr
      have h1 : joinLines [a] = a := by simp [joinLines, List.intercalate]
      rw [h1] at h
      exact ⟨a, List.mem_cons_self a [], h⟩
    | cons b q =>
      subst hr
      rw [joinLines_cons a (b :: q) (by simp)] at h
      rcases infix_append_cons_split hnl h with h | h
      · exact ⟨a, List.mem_cons_self _ _, h⟩
      · rcases ih hnl hne h with ⟨l, hl, hp⟩
        exact ⟨l, List.mem_cons_of_mem a hl, hp⟩

theorem mem_drop_trailing_fence {l : Str} {ls : List Str}
    (h : l ∈ drop_trailing_fence ls) : l ∈ ls := by
  unfold drop_trailing_fence at h
  have h1 : l ∈ ls.reverse.dropWhile (fun x => decide (stripWs x = str "```")) :=
    List.mem_reverse.mp h
  exact List.mem_reverse.mp ((List.dropWhile_suffix _).subset h1)

theorem strip_fence_no_flowchart {s : Str}
    (h : containsStr (toLowerStr s) (str "flowchart") = false) :
    containsStr (toLowerStr (strip_fence s)) (str "flowchart") = false := by
  cases hl : splitlines_py s with
  | nil =>
    unfold strip_fence
    rw [hl]
    exact h
  | cons l0 rest =>
    unfold strip_fence
    rw [hl]
    simp only []
    have key : ∀ lines1 : List Str, (∀ x ∈ lines1, x ∈ splitlines_py s) →
        containsStr (toLowerStr (joinLines (drop_trailing_fence lines1)))
          (str "flowchart") = false := by
      intro lines1 hsub
      by_contra hc
      rw [Bool.not_eq_false] at hc
      have hinf := containsStr_iff.mp hc
      rw [toLowerStr_joinLines] at hinf
      rcases infix_joinLines_mem (by decide) (by decide) hinf with ⟨l2, hl2, hpl⟩
      rcases List.mem_map.mp hl2 with ⟨l, hlmem, hml⟩
      have hl_in : l ∈ splitlines_py s := hsub l (mem_drop_trailing_fence hlmem)
      have hinf2 : l <:+: s := mem_splitlines_py_infixOf hl_in
      have hfin : str "flowchart" <:+: toLowerStr s :=
        (hml ▸ hpl).trans (toLowerStr_infix_mono hinf2)
      rw [containsStr_iff.mpr hfin] at h
      exact Bool.true_eq_false.mp h
    split
    · exact key rest (fun x hx => by rw [hl]; exact List.mem_cons_of_mem _ hx)
    · exact key (l0 :: rest) (fun x hx => by rw [hl]; exact hx)

theorem extract_scan_line_keep {st : ExtractState} {l : Str}
    (hl : containsStr (toLowerStr (stripWs l)) (str "flowchart") = false)
    (hacc : st.acc = []) (hinF : st.inF = false) :
    (extract_scan_line st l).acc = [] ∧ (extract_scan_line st l).inF = false := by
  unfold extract_scan_line
  simp only [hinF, hl, Bool.false_and, Bool.false_eq_true, if_false]
  repeat' split
  all_goals simp_all

theorem extract_scan_acc_nil {lines : List Str}
    (h : ∀ l ∈ lines, containsStr (toLowerStr (stripWs l)) (str "flowchart") = false)
    {st : ExtractState} (hacc : st.acc = []) (hinF : st.inF = false) :
    (lines.foldl extract_scan_line st).acc = [] := by
  induction lines generalizing st with
  | nil => exact hacc
  | cons l rest ih =>
    have hstep := extract_scan_line_keep (h l (List.mem_cons_self _ _)) hacc hinF
    exact ih (fun x hx => h x (List.mem_cons_of_mem _ hx)) hstep.1 hstep.2

theorem extract_mermaid_empty_of_no_flowchart {text : Str}
    (hnf : containsStr (toLowerStr text) (str "flowchart") = false) :
    extract_mermaid text = [] := by
  unfold extract_mermaid
  by_cases he : text.isEmpty = true
  · rw [if_pos he]
  · rw [if_neg he]
    simp only []
    set cl0 := stripWs text with hcl0
    have hP0 : containsStr (toLowerStr cl0) (str "flowchart") = false :=
      lower_contains_false_mono hnf (stripWs_infixOf text)
    set cl1 := if startsW cl0 (str "```") = true then strip_fence cl0 else cl0 with hcl1
    have hP1 : containsStr (toLowerStr cl1) (str "flowchart") = false := by
      rw [hcl1]
      split
      · exact strip_fence_no_flowchart hP0
      · exact hP0
    set cl := stripWs cl1 with hcl
    have hP : containsStr (toLowerStr cl) (str "flowchart") = false :=
      lower_contains_false_mono hP1 (stripWs_infixOf cl1)
    have hacc : ((splitLines cl).foldl extract_scan_line ⟨[], false, false, false⟩).acc = [] := by
      apply extract_scan_acc_nil
      · intro l hlmem
        exact line_lower_contains hP (mem_splitLines_infixOf hlmem)
      · rfl
      · rfl
    rw [hacc]
    simp only [List.isEmpty_nil, if_true]
    have hfind : findSubIdx (toLowerStr cl) (str "flowchart") = none :=
      findSubIdx_eq_none hP
    rw [hfind]
    simp

theorem fallback_ne_nil (d : Str) : generate_fallback_flowchart d ≠ [] := by
  unfold generate_fallback_flowchart
  simp only []
  split
  · decide
  · split
    · decide
    · simp [str]

/-- C9: for every raw response text in which "flowchart" does not occur
anywhere (case-insensitively), `extract_mermaid` returns the empty string, and
`_generate_mermaid` routes to the fallback generator without raising: the
result is `ok` of the fallback diagram for the stripped description. -/
theorem c9_no_flowchart_empty_extraction_routes_to_fallback (text d lvl : Str)
    (hnf : containsStr (toLowerStr text) (str "flowchart") = false)
    (hd : stripWs d ≠ []) (hlev : resolve_mode lvl ≠ none) :
    extract_mermaid text = []
    ∧ generate_mermaid true d lvl (.ok text)
      = .ok (generate_fallback_flowchart (stripWs d)) := by
  have hext := extract_mermaid_empty_of_no_flowchart hnf
  refine ⟨hext, ?_⟩
  unfold generate_mermaid
  cases hr : resolve_mode lvl with
  | none => exact absurd hr hlev
  | some m =>
    simp [List.isEmpty_iff, hd, hr, hext]

theorem c9_no_flowchart_empty_extraction_routes_to_fallback_witness :
    containsStr (toLowerStr (str "graph LR\nA --> B")) (str "flowchart") = false
    ∧ stripWs (str "make tea") ≠ []
    ∧ resolve_mode (str "2") ≠ none
    ∧ extract_mermaid (str "graph LR\nA --> B") = []
    ∧ generate_mermaid true (str "make tea") (str "2") (.ok (str "graph LR\nA --> B"))
      = .ok (generate_fallback_flowchart (stripWs (str "make tea"))) := by
  have h := c9_no_flowchart_empty_extraction_routes_to_fallback
    (str "graph LR\nA --> B") (str "make tea") (str "2")
    (by decide) (by decide) (by decide)
  exact ⟨by decide, by decide, by decide, h.1, h.2⟩

/-- C2: for every request with a non-empty description, if the generation
call raises (modelled by `Except.error`), `process` still returns a
success response whose `mermaid_code` is the non-empty fallback diagram. -/
theorem c2_generation_failure_still_success (save_to_file : Bool)
    (dl d emsg : Str) (req : FlowRequest) (paths : List (Str × Str))
    (hdesc : req.description = some d) (hne : stripWs d ≠ [])
    (hlev : resolve_mode (req.level.getD dl) ≠ none) :
    ∃ r : FlowResult,
      process true save_to_file dl req (.error emsg) (.ok paths) =
        ⟨.success, some r, none⟩
      ∧ r.mermaid_code = generate_fallback_flowchart (stripWs d)
      ∧ r.mermaid_code ≠ [] := by
  have hgen : generate_mermaid true d (req.level.getD dl) (.error emsg) =
      .ok (generate_fallback_flowchart (stripWs d)) := by
    unfold generate_mermaid
    cases hr : resolve_mode (req.level.getD dl) with
    | none => exact absurd hr hlev
    | some m => simp [List.isEmpty_iff, hne, hr]
  unfold process
  rw [hdesc]
  simp only [hgen]
  split
  · exact ⟨⟨generate_fallback_flowchart (stripWs d), req.level.getD dl, paths⟩,
      rfl, rfl, fallback_ne_nil _⟩
  · exact ⟨⟨generate_fallback_flowchart (stripWs d), req.level.getD dl, []⟩,
      rfl, rfl, fallback_ne_nil _⟩

theorem c2_generation_failure_still_success_witness :
    (⟨some (str "make tea"), none, none⟩ : FlowRequest).description
      = some (str "make tea")
    ∧ stripWs (str "make tea") ≠ []
    ∧ resolve_mode ((⟨some (str "make tea"), none, none⟩ : FlowRequest).level.getD
        (str "intermediate")) ≠ none
    ∧ ∃ r : FlowResult,
        process true false (str "intermediate")
          ⟨some (str "make tea"), none, none⟩
          (.error (str "Request timed out")) (.ok []) =
          ⟨.success, some r, none⟩
        ∧ r.mermaid_code = generate_fallback_flowchart (stripWs (str "make tea"))
        ∧ r.mermaid_code ≠ [] :=
  ⟨rfl, by decide, by decide,
    c2_generation_failure_still_success false (str "intermediate")
      (str "make tea") (str "Request timed out")
      ⟨some (str "make tea"), none, none⟩ [] rfl (by decide) (by decide)⟩

/-- C10: `process` is total: a missing description, a missing model, or an
empty description yield the specific error responses below (status ERROR,
result none, the message in the error field), and in all cases the response
is either a success or an error with no result and a non-none error. -/
theorem c10_process_total_error_shape (hasModel save_to_file : Bool) (dl : Str)
    (req : FlowRequest) (genResult : Except Str Str)
    (saveResult : Except Str (List (Str × Str))) :
    (req.description = none →
      process hasModel save_to_file dl req genResult saveResult =
        ⟨.error, none, some (str "Missing required fields: description")⟩)
    ∧ (∀ d, req.description = some d → hasModel = false →
      process hasModel save_to_file dl req genResult saveResult =
        ⟨.error, none, some (str "Gemini API key required")⟩)
    ∧ (∀ d, req.description = some d → hasModel = true → stripWs d = [] →
      process hasModel save_to_file dl req genResult saveResult =
        ⟨.error, none, some (str "Process description cannot be empty")⟩)
    ∧ ((process hasModel save_to_file dl req genResult saveResult).status = .success
      ∨ ((process hasModel save_to_file dl req genResult saveResult).status = .error
        ∧ (process hasModel save_to_file dl req genResult saveResult).result = none
        ∧ (process hasModel save_to_file dl req genResult saveResult).error ≠ none)) := by
  refine ⟨?_, ?_, ?_, ?_⟩
  · intro h; simp [process, h]
  · intro d hd hm; subst hm; simp [process, hd, generate_mermaid]
  · intro d hd hm he
    subst hm
    simp [process, hd, generate_mermaid, he]
  · cases hd : req.description with
    | none => simp [process, hd]
    | some d =>
      cases hg : generate_mermaid hasModel d (req.level.getD dl) genResult with
      | error e => simp [process, hd, hg]
      | ok code =>
        by_cases hc : (save_to_file
            || decide (req.output_format.getD (str "mermaid") = str "png")
            || decide (req.output_format.getD (str "mermaid") = str "both")) = true
        · cases saveResult <;> simp [process, hd, hg, hc]
        · simp [process, hd, hg, hc]

theorem mem_joinLines {c : Char} {ls : List Str} (h : c ∈ joinLines ls) :
    c = '\n' ∨ ∃ x ∈ ls, c ∈ x := by
  induction ls with
  | nil => simp [joinLines, List.intercalate] at h
  | cons a r ih =>
    cases hr : r with
    | nil =>
      subst hr
      have ha : joinLines [a] = a := by simp [joinLines, List.intercalate]
      rw [ha] at h
      exact Or.inr ⟨a, List.mem_cons_self a [], h⟩
    | cons b q =>
      subst hr
      rw [joinLines_cons a (b :: q) (by simp)] at h
      rcases List.mem_append.mp h with hm | hm
      · exact Or.inr ⟨a, List.mem_cons_self _ _, hm⟩
      · rcases List.mem_cons.mp hm with hm | hm
        · exact Or.inl hm
        · rcases ih hm with hm | ⟨x, hx, hcx⟩
          · exact Or.inl hm
          · exact Or.inr ⟨x, List.mem_cons_of_mem a hx, hcx⟩

theorem mem_stripWs {c : Char} {s : Str} (h : c ∈ stripWs s) : c ∈ s :=
  (stripWs_infixOf s).subset h

theorem no_tab_normalize_spacing_line (line : Str) :
    '\t' ∉ normalize_spacing_line line := by
  have hst : '\t' ∉ stripWs (expandTabs line) :=
    fun hm => no_tab_expandTabs line (mem_stripWs hm)
  unfold normalize_spacing_line
  simp only []
  split
  · exact hst
  · split
    · simp
    · have hsp : ∀ k : Nat, '\t' ∉ spaces k := by
        intro k hm
        have := List.eq_of_mem_replicate hm
        exact absurd this (by decide)
      split
      · intro hm
        rcases List.mem_append.mp hm with hm | hm
        · exact hsp _ hm
        · exact hst hm
      · intro hm
        rcases List.mem_append.mp hm with hm | hm
        · exact hsp _ hm
        · exact hst hm

theorem no_tab_normalize_spacing (code : Str) : '\t' ∉ normalize_spacing code := by
  intro hm
  rcases mem_joinLines hm with h | ⟨x, hx, hcx⟩
  · exact absurd h (by decide)
  · rcases List.mem_map.mp hx with ⟨l, _, hl⟩
    exact no_tab_normalize_spacing_line l (hl ▸ hcx)

/-- C5 (amended): after spacing normalization no tab survives (every tab was
expanded to four spaces), a header line is stripped of all leading whitespace,
and a non-empty non-header line originally indented by `n` spaces is re-indented
to `max 4 (n / 4 * 4)` spaces - at least four, rounded down to a multiple of
four, not forced to exactly four. -/
theorem c5_spacing_normalization_amended (code : Str) (n : Nat) (t : Str)
    (ht : '\t' ∉ t) (hh : t.head?.all (fun c => !isWsChar c) = true) :
    '\t' ∉ normalize_spacing code
    ∧ normalize_spacing_line (spaces n ++ t) =
      (if startsW (stripWs t) (str "flowchart") then stripWs t
       else if (stripWs t).isEmpty then []
       else spaces (max 4 (n / 4 * 4)) ++ stripWs t) := by
  refine ⟨no_tab_normalize_spacing code, ?_⟩
  have htl : '\t' ∉ spaces n ++ t := by
    intro hm
    rcases List.mem_append.mp hm with hm | hm
    · exact absurd (List.eq_of_mem_replicate hm) (by decide)
    · exact ht hm
  have hexp : expandTabs (spaces n ++ t) = spaces n ++ t := expandTabs_eq_self htl
  have hlt : lstripWs t = t := by
    cases t with
    | nil => rfl
    | cons a r =>
      simp only [List.head?_cons, Option.all_some, Bool.not_eq_true'] at hh
      exact lstripWs_cons_of_not_ws hh
  have hstrip : stripWs (spaces n ++ t) = stripWs t := by
    rw [stripWs, lstripWs_spaces_append]
    rfl
  rw [normalize_spacing_line]
  simp only [hexp, hstrip]
  by_cases h1 : startsW (stripWs t) (str "flowchart") = true
  · simp only [if_pos h1]
  · by_cases h2 : (stripWs t).isEmpty = true
    · simp only [if_neg h1, if_pos h2]
    · cases hn : n with
      | zero =>
        subst hn
        have htne : t ≠ [] := by
          intro he
          rw [he] at h2
          exact h2 rfl
        have hhead : ¬((spaces 0 ++ t).head? = some ' ') := by
          cases t with
          | nil => exact absurd rfl htne
          | cons a r =>
            simp only [List.head?_cons, Option.all_some, Bool.not_eq_true'] at hh
            simp only [spaces, List.replicate, List.nil_append, List.head?_cons]
            intro hc
            have ha : a = ' ' := by injection hc
            rw [ha] at hh
            exact absurd hh (by decide)
        rw [if_neg h1, if_neg h2, if_neg hhead, if_neg h1, if_neg h2]
        norm_num
      | succ k =>
        subst hn
        have hhead : (spaces (k+1) ++ t).head? = some ' ' := by
          simp [spaces, List.replicate]
        have hlead : (spaces (k+1) ++ t).length - (lstripWs (spaces (k+1) ++ t)).length
            = k + 1 := by
          rw [lstripWs_spaces_append, hlt]
          simp [spaces]
        have hmax : (if (k+1) / 4 * 4 = 0 then 4 else (k+1) / 4 * 4)
            = max 4 ((k+1) / 4 * 4) := by
          by_cases hz : (k+1) / 4 * 4 = 0
          · rw [if_pos hz, hz]
            norm_num
          · rw [if_neg hz]
            have h4 : 4 ≤ (k+1) / 4 * 4 := by omega
            exact (Nat.max_eq_right h4).symm
        rw [if_neg h1, if_neg h2, if_pos hhead, hlead, hmax, if_neg h1, if_neg h2]

theorem c5_spacing_normalization_amended_witness :
    '\t' ∉ str "A --> B"
    ∧ (str "A --> B").head?.all (fun c => !isWsChar c) = true
    ∧ ('\t' ∉ normalize_spacing (str "flowchart TD\n\tA --> B")
       ∧ normalize_spacing_line (spaces 9 ++ str "A --> B") =
         (if startsW (stripWs (str "A --> B")) (str "flowchart")
          then stripWs (str "A --> B")
          else if (stripWs (str "A --> B")).isEmpty then []
          else spaces (max 4 (9 / 4 * 4)) ++ stripWs (str "A --> B"))) :=
  ⟨by decide, by decide,
    c5_spacing_normalization_amended (str "flowchart TD\n\tA --> B") 9
      (str "A --> B") (by decide) (by decide)⟩

/-- C7 (amended): the heuristic syntax check reports "Invalid character after
closing bracket" (resp. "brace") for a line whenever the stripped line is
non-empty, is not a header or comment line, contains an arrow, and a
non-whitespace character other than a dash or pipe follows a closing square
bracket (resp. closing curly brace); closing parentheses are never checked,
and lines without an arrow are skipped. -/
theorem c7_close_violation_reported_amended (code : Str) (i : Nat) (line : Str)
    (hget : (splitLines code).get? i = some line)
    (hne : (stripWs line).isEmpty = false)
    (hfc : startsW (stripWs line) (str "flowchart") = false)
    (hcm : startsW (stripWs line) (str "%%") = false)
    (harrow : containsStr (stripWs line) (str "-->") = true) :
    (has_close_viol ']' (stripWs line) = true →
      (str "Line " ++ nat_str (i+1) ++ str ": Invalid character after closing bracket")
        ∈ check_syntax_errors code)
    ∧ (has_close_viol '\x7d' (stripWs line) = true →
      (str "Line " ++ nat_str (i+1) ++ str ": Invalid character after closing brace")
        ∈ check_syntax_errors code) := by
  have hmap : line_err_msgs (i+1) line ∈
      ((splitLines code).enum.map (fun p => line_err_msgs (p.1 + 1) p.2)) := by
    refine List.mem_map.mpr ⟨(i, line), ?_, rfl⟩
    exact List.mem_enum_iff_get?.mpr hget
  constructor
  · intro hviol
    have hmem : (str "Line " ++ nat_str (i+1)
        ++ str ": Invalid character after closing bracket")
        ∈ line_err_msgs (i+1) line := by
      unfold line_err_msgs
      rw [if_neg (by simp [hne, hfc, hcm])]
      refine List.mem_append_right _ ?_
      rw [if_pos harrow]
      refine List.mem_append_left _ ?_
      rw [if_pos hviol]
      exact List.mem_singleton.mpr rfl
    exact List.mem_join.mpr ⟨_, hmap, hmem⟩
  · intro hviol
    have hmem : (str "Line " ++ nat_str (i+1)
        ++ str ": Invalid character after closing brace")
        ∈ line_err_msgs (i+1) line := by
      unfold line_err_msgs
      rw [if_neg (by simp [hne, hfc, hcm])]
      refine List.mem_append_right _ ?_
      rw [if_pos harrow]
      refine List.mem_append_right _ ?_
      rw [if_pos hviol]
      exact List.mem_singleton.mpr rfl
    exact List.mem_join.mpr ⟨_, hmap, hmem⟩

theorem c7_close_violation_reported_amended_witness :
    (splitLines (str "flowchart TD\n    A[Go]x --> B\x7bY\x7dy")).get? 1
      = some (str "    A[Go]x --> B\x7bY\x7dy")
    ∧ (stripWs (str "    A[Go]x --> B\x7bY\x7dy")).isEmpty = false
    ∧ has_close_viol ']' (stripWs (str "    A[Go]x --> B\x7bY\x7dy")) = true
    ∧ has_close_viol '\x7d' (stripWs (str "    A[Go]x --> B\x7bY\x7dy")) = true
    ∧ (str "Line " ++ nat_str (1+1) ++ str ": Invalid character after closing bracket")
        ∈ check_syntax_errors (str "flowchart TD\n    A[Go]x --> B\x7bY\x7dy")
    ∧ (str "Line " ++ nat_str (1+1) ++ str ": Invalid character after closing brace")
        ∈ check_syntax_errors (str "flowchart TD\n    A[Go]x --> B\x7bY\x7dy") := by
  have h := c7_close_violation_reported_amended
    (str "flowchart TD\n    A[Go]x --> B\x7bY\x7dy") 1
    (str "    A[Go]x --> B\x7bY\x7dy")
    (by decide) (by decide) (by decide) (by decide) (by decide)
  exact ⟨by decide, by decide, by decide, by decide, h.1 (by decide), h.2 (by decide)⟩

theorem chr65_toNat (i : Nat) : (chr65 i).toNat = 65 + i ∨ (chr65 i).toNat = 0 := by
  unfold chr65 Char.ofNat
  split
  · left; rfl
  · right; rfl

theorem isWsChar_toNat {c : Char} (h : isWsChar c = true) :
    c.toNat = 32 ∨ c.toNat = 9 ∨ c.toNat = 10 ∨ c.toNat = 13
      ∨ c.toNat = 11 ∨ c.toNat = 12 := by
  unfold isWsChar at h
  simp only [Bool.or_eq_true, decide_eq_true_eq] at h
  rcases h with ((((h | h) | h) | h) | h) | h <;> subst h <;> simp [Char.toNat]

theorem isWsChar_chr65 (i : Nat) : isWsChar (chr65 i) = false := by
  cases hws : isWsChar (chr65 i)
  · rfl
  · exfalso
    rcases chr65_toNat i with h | h <;>
      rcases isWsChar_toNat hws with h2 | h2 | h2 | h2 | h2 | h2 <;> omega

theorem chr65_ne_char (i : Nat) {c : Char} (h1 : c.toNat ≠ 65 + i)
    (h2 : c.toNat ≠ 0) : chr65 i ≠ c := by
  intro he
  rcases chr65_toNat i with h | h <;> rw [he] at h
  · exact h1 h
  · exact h2 h

theorem clean_step_no_nl {st : Str} (h : '\n' ∉ st) : '\n' ∉ clean_step st := by
  intro hm
  unfold clean_step at hm
  rcases List.mem_map.mp hm with ⟨x, hx, hfx⟩
  have hxs : x ∈ st := List.mem_of_mem_filter hx
  by_cases hq : x = '"'
  · rw [if_pos hq] at hfx
    exact absurd hfx (by decide)
  · rw [if_neg hq] at hfx
    exact h (hfx ▸ hxs)

theorem joinLines_append (l1 l2 : List Str) (h1 : l1 ≠ []) (h2 : l2 ≠ []) :
    joinLines (l1 ++ l2) = joinLines l1 ++ '\n' :: joinLines l2 := by
  induction l1 with
  | nil => simp at h1
  | cons a r ih =>
    cases hr : r with
    | nil =>
      subst hr
      rw [List.cons_append, List.nil_append, joinLines_cons a l2 h2]
      have ha : joinLines [a] = a := by simp [joinLines, List.intercalate]
      rw [ha]
    | cons b q =>
      subst hr
      rw [List.cons_append, joinLines_cons a ((b :: q) ++ l2) (by simp),
        joinLines_cons a (b :: q) (by simp), ih (by simp)]
      simp

theorem rstripWs_ne_nil_of_mem {c : Char} {s : Str} (h : c ∈ s)
    (hc : isWsChar c = false) : rstripWs s ≠ [] := by
  intro he
  rw [rstripWs] at he
  have hrev : s.reverse.dropWhile isWsChar = [] := by
    have := congrArg List.reverse he
    simpa using this
  have := List.dropWhile_eq_nil_iff.mp hrev c (List.mem_reverse.mpr h)
  rw [hc] at this
  exact absurd this (by decide)

theorem rstripWs_append (a b : Str) (h : rstripWs b ≠ []) :
    rstripWs (a ++ b) = a ++ rstripWs b := by
  rw [rstripWs, List.reverse_append, List.dropWhile_append]
  have hne : (b.reverse.dropWhile isWsChar).isEmpty = false := by
    rw [Bool.eq_false_iff]
    intro he
    apply h
    rw [rstripWs, List.isEmpty_iff.mp he]
    rfl
  rw [hne]
  simp [rstripWs]

theorem lstripWs_append_of_not_ws {a : Str} (b : Str)
    (ha : a.dropWhile isWsChar = a) (hne : a ≠ []) :
    lstripWs (a ++ b) = a ++ b := by
  rw [lstripWs, List.dropWhile_append, ha]
  have hae : a.isEmpty = false := by
    rw [Bool.eq_false_iff]
    intro he
    exact hne (List.isEmpty_iff.mp he)
  rw [hae]
  simp

theorem node_line_no_nl (i : Nat) {st : Str} (h : '\n' ∉ st) :
    '\n' ∉ fallback_node_line i st := by
  intro hm
  unfold fallback_node_line at hm
  rcases List.mem_append.mp hm with hm | hm
  · exact absurd hm (by decide)
  · rcases List.mem_cons.mp hm with hm | hm
    · exact chr65_ne_char i
        (by rw [show ('\n').toNat = 10 from rfl]; omega)
        (by rw [show ('\n').toNat = 10 from rfl]; omega) hm.symm
    · rcases List.mem_cons.mp hm with hm | hm
      · exact absurd hm (by decide)
      · rcases List.mem_append.mp hm with hm | hm
        · exact clean_step_no_nl h hm
        · exact absurd hm (by decide)

theorem conn_line_no_nl (i : Nat) : '\n' ∉ fallback_conn_line i := by
  intro hm
  unfold fallback_conn_line at hm
  rcases List.mem_append.mp hm with hm | hm
  · exact absurd hm (by decide)
  · rcases List.mem_cons.mp hm with hm | hm
    · exact chr65_ne_char (i - 1)
        (by rw [show ('\n').toNat = 10 from rfl]; omega)
        (by rw [show ('\n').toNat = 10 from rfl]; omega) hm.symm
    · rcases List.mem_append.mp hm with hm | hm
      · exact absurd hm (by decide)
      · rcases List.mem_cons.mp hm with hm | hm
        · exact chr65_ne_char i
            (by rw [show ('\n').toNat = 10 from rfl]; omega)
            (by rw [show ('\n').toNat = 10 from rfl]; omega) hm.symm
        · exact absurd hm (by decide)

theorem stripWs_cons_shape {c : Char} {T : Str} (hne : rstripWs (c :: T) ≠ []) :
    ∃ t, rstripWs (c :: T) = c :: t := by
  rcases hy : rstripWs (c :: T) with _ | ⟨d, t⟩
  · exact absurd hy hne
  · have hp := rstripWs_prefixOf (c :: T)
    rw [hy] at hp
    rcases List.cons_prefix_cons.mp hp with ⟨hd, _⟩
    exact ⟨t, by rw [hd]⟩

theorem stripWs_node_line (i : Nat) (st : Str) :
    ∃ t, stripWs (fallback_node_line i st) = chr65 i :: t := by
  unfold fallback_node_line stripWs
  rw [lstripWs, List.dropWhile_append]
  rw [show ((str "    ").dropWhile isWsChar).isEmpty = true from rfl]
  rw [if_pos rfl]
  rw [List.dropWhile_cons_of_neg (by simp [isWsChar_chr65])]
  exact stripWs_cons_shape (rstripWs_ne_nil_of_mem
    (List.mem_cons_of_mem _ (List.mem_cons_self _ _)) (by decide))

theorem stripWs_conn_line (i : Nat) :
    ∃ t, stripWs (fallback_conn_line i) = chr65 (i - 1) :: t := by
  unfold fallback_conn_line stripWs
  rw [lstripWs, List.dropWhile_append]
  rw [show ((str "    ").dropWhile isWsChar).isEmpty = true from rfl]
  rw [if_pos rfl]
  rw [List.dropWhile_cons_of_neg (by simp [isWsChar_chr65])]
  have hmem : '>' ∈ chr65 (i - 1) :: (str " --> " ++ [chr65 i]) :=
    List.mem_cons_of_mem _ (List.mem_append_left _ (by decide))
  exact stripWs_cons_shape (rstripWs_ne_nil_of_mem hmem (by decide))

theorem chr65_ne_pct (i : Nat) : chr65 i ≠ '%' :=
  chr65_ne_char i
    (by rw [show ('%').toNat = 37 from rfl]; omega)
    (by rw [show ('%').toNat = 37 from rfl]; omega)

theorem kept_of_stripWs_chr65 {l : Str} {i : Nat} {t : Str}
    (ht : stripWs l = chr65 i :: t) :
    (!(stripWs l).isEmpty && !startsW (stripWs l) (str "%%")) = true := by
  rw [ht]
  have h2 : startsW (chr65 i :: t) (str "%%") = false := by
    unfold startsW
    rw [show (str "%%") = '%' :: '%' :: [] from rfl]
    rw [List.isPrefixOf]
    have : ('%' == chr65 i) = false := by
      rw [beq_eq_false_iff_ne]
      exact (chr65_ne_pct i).symm
    rw [this]
    rfl
  rw [h2]
  rfl

theorem mem_joinLines_of_mem {c : Char} {x : Str} {ls : List Str}
    (hx : x ∈ ls) (hc : c ∈ x) : c ∈ joinLines ls := by
  induction ls with
  | nil => simp at hx
  | cons a r ih =>
    cases hr : r with
    | nil =>
      subst hr
      have ha : joinLines [a] = a := by simp [joinLines, List.intercalate]
      rw [ha]
      rcases List.mem_cons.mp hx with hx | hx
      · exact hx ▸ hc
      · simp at hx
    | cons b q =>
      subst hr
      rw [joinLines_cons a (b :: q) (by simp)]
      rcases List.mem_cons.mp hx with hx | hx
      · exact List.mem_append_left _ (hx ▸ hc)
      · exact List.mem_append_right _ (List.mem_cons_of_mem _ (ih hx))

theorem infix_joinLines_of_mem {x : Str} {ls : List Str} (hx : x ∈ ls) :
    x <:+: joinLines ls := by
  induction ls with
  | nil => simp at hx
  | cons a r ih =>
    cases hr : r with
    | nil =>
      subst hr
      have ha : joinLines [a] = a := by simp [joinLines, List.intercalate]
      rw [ha]
      rcases List.mem_cons.mp hx with hx | hx
      · exact hx ▸ List.infix_refl x
      · simp at hx
    | cons b q =>
      subst hr
      rw [joinLines_cons a (b :: q) (by simp)]
      rcases List.mem_cons.mp hx with hx | hx
      · exact hx ▸ (List.prefix_append a _).isInfix
      · exact ((ih hx).trans (List.infix_cons (List.infix_refl _))).trans
          (List.suffix_append a _).isInfix

theorem fallback_steps_no_nl {d st : Str} (h : st ∈ fallback_steps d) :
    '\n' ∉ st := by
  rcases List.mem_filterMap.mp h with ⟨l, hl, hf⟩
  have hnll := mem_splitLines_no_newline hl
  simp only [] at hf
  split at hf
  · exact absurd hf (by simp)
  · split at hf
    · exact absurd hf (by simp)
    · have hst : st
          = ((stripWs l).dropWhile (fun c => step_lstrip_set.contains c)).take 50 :=
        (Option.some.inj hf).symm
      intro hm
      rw [hst] at hm
      have h1 : '\n' ∈ (stripWs l).dropWhile (fun c => step_lstrip_set.contains c) :=
        List.take_subset _ _ hm
      have h2 : '\n' ∈ stripWs l := (List.dropWhile_suffix _).subset h1
      exact hnll (mem_stripWs h2)

theorem arrow_infix_conn (i : Nat) : str "-->" <:+: fallback_conn_line i := by
  unfold fallback_conn_line
  have h1 : str "-->" <:+: str " --> " := by decide
  have h2 : str " --> " <:+: str " --> " ++ [chr65 i] :=
    (List.prefix_append _ _).isInfix
  have h3 : str " --> " ++ [chr65 i]
      <:+: chr65 (i - 1) :: (str " --> " ++ [chr65 i]) :=
    List.infix_cons (List.infix_refl _)
  have h4 : chr65 (i - 1) :: (str " --> " ++ [chr65 i])
      <:+: str "    " ++ chr65 (i - 1) :: (str " --> " ++ [chr65 i]) :=
    (List.suffix_append _ _).isInfix
  exact ((h1.trans h2).trans h3).trans h4

theorem node_line_brackets (i : Nat) (st : Str) :
    (fallback_node_line i st).contains '[' = true
    ∧ (fallback_node_line i st).contains ']' = true := by
  constructor
  · exact List.elem_eq_true_of_mem
      (List.mem_append_right _ (List.mem_cons_of_mem _ (List.mem_cons_self _ _)))
  · exact List.elem_eq_true_of_mem
      (List.mem_append_right _ (List.mem_cons_of_mem _ (List.mem_cons_of_mem _
        (List.mem_append_right _ (List.mem_cons_self _ _)))))

theorem validate_generic_build (a b : Str) (rest : List Str)
    (hnl : ∀ st ∈ a :: b :: rest, '\n' ∉ st) :
    validate_mermaid (str "flowchart TD\n"
      ++ (joinLines ((a :: b :: rest).enum.map
            (fun p => fallback_node_line p.1 p.2))
        ++ '\n' :: joinLines ((a :: b :: rest).enum.filterMap
            (fun p => if 0 < p.1 then some (fallback_conn_line p.1) else none)))) = true := by
  set sT : List Str := a :: b :: rest with hsT
  set nodes : List Str := sT.enum.map (fun p => fallback_node_line p.1 p.2) with hnodes
  set conns : List Str := sT.enum.filterMap
    (fun p => if 0 < p.1 then some (fallback_conn_line p.1) else none) with hconns
  have hn0 : fallback_node_line 0 a ∈ nodes := by
    refine List.mem_map.mpr ⟨(0, a), ?_, rfl⟩
    exact List.mem_enum_iff_get?.mpr rfl
  have hc1 : fallback_conn_line 1 ∈ conns := by
    refine List.mem_filterMap.mpr ⟨(1, b), ?_, by simp⟩
    exact List.mem_enum_iff_get?.mpr rfl
  have hnodes_ne : nodes ≠ [] := List.ne_nil_of_mem hn0
  have hconns_ne : conns ≠ [] := List.ne_nil_of_mem hc1
  have hbr0 : '[' ∈ fallback_node_line 0 a :=
    List.mem_append_right _ (List.mem_cons_of_mem _ (List.mem_cons_self _ _))
  set L : List Str := str "flowchart TD" :: (nodes ++ conns) with hL
  set R : Str := joinLines nodes ++ '\n' :: joinLines conns with hR
  have HL : ∀ l ∈ L, '\n' ∉ l := by
    intro l hl
    rcases List.mem_cons.mp hl with hl | hl
    · subst hl; decide
    · rcases List.mem_append.mp hl with hl | hl
      · rcases List.mem_map.mp hl with ⟨⟨i, st⟩, hp, he⟩
        have hstm : st ∈ sT := List.get?_mem (List.mem_enum_iff_get?.mp hp)
        exact he ▸ node_line_no_nl i (hnl st hstm)
      · rcases List.mem_filterMap.mp hl with ⟨⟨i, st⟩, hp, hg⟩
        split at hg
        · exact (Option.some.inj hg) ▸ conn_line_no_nl i
        · exact absurd hg (by simp)
  have hcode : str "flowchart TD\n" ++ R = joinLines L := by
    rw [hL, joinLines_cons (str "flowchart TD") (nodes ++ conns)
        (by simp [hnodes_ne]),
      joinLines_append nodes conns hnodes_ne hconns_ne]
    rfl
  have hsplit : splitLines (str "flowchart TD\n" ++ R) = L := by
    rw [hcode]
    exact splitLines_joinLines (by simp [hL]) HL
  have hA : (str "flowchart TD\n" ++ R).isEmpty = false := rfl
  have hbrR : '[' ∈ R := List.mem_append_left _ (mem_joinLines_of_mem hn0 hbr0)
  have hstripc : stripWs (str "flowchart TD\n" ++ R)
      = str "flowchart TD\n" ++ rstripWs R := by
    rw [stripWs, lstripWs_append_of_not_ws _ (by decide) (by decide),
      rstripWs_append _ _ (rstripWs_ne_nil_of_mem hbrR (by decide))]
  have hs10 : ¬((stripWs (str "flowchart TD\n" ++ R)).length < 10) := by
    rw [hstripc, List.length_append, show (str "flowchart TD\n").length = 13 from rfl]
    omega
  have hfw : startsW (stripWs (str "flowchart TD\n" ++ R)) (str "flowchart") = true := by
    rw [hstripc]
    rfl
  have harrow : containsStr (str "flowchart TD\n" ++ R) (str "-->") = true := by
    rw [containsStr_iff]
    have h1 : str "-->" <:+: joinLines conns :=
      (arrow_infix_conn 1).trans (infix_joinLines_of_mem hc1)
    have h2 : str "-->" <:+: R :=
      (h1.trans (List.infix_cons (List.infix_refl _))).trans
        (List.suffix_append _ _).isInfix
    exact h2.trans (List.suffix_append _ _).isInfix
  have hkeep : ∀ l ∈ L,
      (!(stripWs l).isEmpty && !startsW (stripWs l) (str "%%")) = true := by
    intro l hl
    rcases List.mem_cons.mp hl with hl | hl
    · subst hl; decide
    · rcases List.mem_append.mp hl with hl | hl
      · rcases List.mem_map.mp hl with ⟨⟨i, st⟩, _, he⟩
        rcases stripWs_node_line i st with ⟨t, ht⟩
        exact he ▸ kept_of_stripWs_chr65 ht
      · rcases List.mem_filterMap.mp hl with ⟨⟨i, st⟩, _, hg⟩
        split at hg
        · rcases stripWs_conn_line i with ⟨t, ht⟩
          exact (Option.some.inj hg) ▸ kept_of_stripWs_chr65 ht
        · exact absurd hg (by simp)
  have hfilter : L.filter
      (fun l => !(stripWs l).isEmpty && !startsW (stripWs l) (str "%%")) = L :=
    List.filter_eq_self.mpr hkeep
  have hnlen : nodes.length = sT.length := by
    rw [hnodes, List.length_map, List.enum_length]
  have hclen : 0 < conns.length := List.length_pos_of_mem hc1
  have hall : ∀ l ∈ nodes ++ conns,
      (containsStr l (str "-->")
        || (l.contains '[' && l.contains ']')
        || (l.contains '{' && l.contains '}')) = true := by
    intro l hl
    rcases List.mem_append.mp hl with hl | hl
    · rcases List.mem_map.mp hl with ⟨⟨i, st⟩, _, he⟩
      rcases node_line_brackets i st with ⟨hb1, hb2⟩
      rw [← he] at *
      rw [hb1, hb2]
      simp
    · rcases List.mem_filterMap.mp hl with ⟨⟨i, st⟩, _, hg⟩
      split at hg
      · have he := Option.some.inj hg
        have hca : containsStr l (str "-->") = true := by
          rw [← he, containsStr_iff]
          exact arrow_infix_conn i
        rw [hca]
        simp
      · exact absurd hg (by simp)
  have hsT2 : 2 ≤ sT.length := by
    rw [hsT, List.length_cons, List.length_cons]
    omega
  have hcount : ¬(L.countP
      (fun l => containsStr l (str "-->")
        || (l.contains '[' && l.contains ']')
        || (l.contains '{' && l.contains '}')) < 2) := by
    rw [hL, List.countP_cons]
    have := List.countP_eq_length.mpr hall
    rw [this, List.length_append]
    omega
  have hL3 : ¬(L.length < 3) := by
    rw [hL, List.length_cons, List.length_append]
    omega
  rw [validate_mermaid]
  simp only [hA, Bool.false_eq_true, if_false, if_neg hs10, hfw, Bool.not_true,
    harrow, hsplit, hfilter, if_neg hL3, if_neg hcount]

theorem validate_of_lines (rest : List Str) (l1 : Str)
    (hlen : 2 ≤ rest.length)
    (hnl : ∀ l ∈ str "flowchart TD" :: rest, '\n' ∉ l)
    (hkeep : ∀ l ∈ rest,
      (!(stripWs l).isEmpty && !startsW (stripWs l) (str "%%")) = true)
    (hcnt : ∀ l ∈ rest,
      (containsStr l (str "-->")
        || (l.contains '[' && l.contains ']')
        || (l.contains '{' && l.contains '}')) = true)
    (hl1 : l1 ∈ rest) (harr : str "-->" <:+: l1) :
    validate_mermaid (joinLines (str "flowchart TD" :: rest)) = true := by
  have hrest_ne : rest ≠ [] := by
    intro he
    rw [he] at hlen
    simp at hlen
  have hJ : joinLines (str "flowchart TD" :: rest)
      = str "flowchart TD" ++ '\n' :: joinLines rest :=
    joinLines_cons _ _ hrest_ne
  have hdash : '-' ∈ l1 := by
    rcases harr with ⟨s, t, hst⟩
    rw [← hst]
    exact List.mem_append_left _ (List.mem_append_right _ (by decide))
  have hdashJ : '-' ∈ '\n' :: joinLines rest :=
    List.mem_cons_of_mem _ (mem_joinLines_of_mem hl1 hdash)
  have hstripc : stripWs (joinLines (str "flowchart TD" :: rest))
      = str "flowchart TD" ++ rstripWs ('\n' :: joinLines rest) := by
    rw [hJ, stripWs, lstripWs_append_of_not_ws _ (by decide) (by decide),
      rstripWs_append _ _ (rstripWs_ne_nil_of_mem hdashJ (by decide))]
  have hA : (joinLines (str "flowchart TD" :: rest)).isEmpty = false := by
    rw [hJ]
    rfl
  have hs10 : ¬((stripWs (joinLines (str "flowchart TD" :: rest))).length < 10) := by
    rw [hstripc, List.length_append, show (str "flowchart TD").length = 12 from rfl]
    omega
  have hfw : startsW (stripWs (joinLines (str "flowchart TD" :: rest)))
      (str "flowchart") = true := by
    rw [hstripc]
    rfl
  have harrow : containsStr (joinLines (str "flowchart TD" :: rest))
      (str "-->") = true := by
    rw [containsStr_iff]
    exact harr.trans (infix_joinLines_of_mem (List.mem_cons_of_mem _ hl1))
  have hsplit : splitLines (joinLines (str "flowchart TD" :: rest))
      = str "flowchart TD" :: rest :=
    splitLines_joinLines (by simp) hnl
  have hfilter : (str "flowchart TD" :: rest).filter
      (fun l => !(stripWs l).isEmpty && !startsW (stripWs l) (str "%%"))
      = str "flowchart TD" :: rest := by
    refine List.filter_eq_self.mpr ?_
    intro l hl
    rcases List.mem_cons.mp hl with hl | hl
    · subst hl; decide
    · exact hkeep l hl
  have hL3 : ¬((str "flowchart TD" :: rest).length < 3) := by
    rw [List.length_cons]
    omega
  have hcount : ¬((str "flowchart TD" :: rest).countP
      (fun l => containsStr l (str "-->")
        || (l.contains '[' && l.contains ']')
        || (l.contains '{' && l.contains '}')) < 2) := by
    rw [List.countP_cons, List.countP_eq_length.mpr hcnt]
    omega
  rw [validate_mermaid]
  simp only [hA, Bool.false_eq_true, if_false, if_neg hs10, hfw, Bool.not_true,
    harrow, hsplit, hfilter, if_neg hL3, if_neg hcount]

theorem validate_notification : validate_mermaid notification_template = true := by
  rw [notification_template]
  exact validate_of_lines _
    (str "    Start[User Action in Discord Mobile App] --> CheckOnline\x7bUser Online?\x7d")
    (by decide) (by decide) (by decide) (by decide) (by decide) (by decide)

theorem validate_login : validate_mermaid login_template = true := by
  rw [login_template]
  exact validate_of_lines _
    (str "    A[Start] --> B[Enter Credentials]")
    (by decide) (by decide) (by decide) (by decide) (by decide) (by decide)

theorem splitLines_append_cons (a b : Str) :
    splitLines (a ++ '\n' :: b) = splitLines a ++ splitLines b := by
  induction a with
  | nil => simp [splitLines]
  | cons c t ih =>
    by_cases hc : c = '\n'
    · subst hc
      simp only [List.cons_append, splitLines, if_pos rfl, List.append_eq, ih]
      simp
    · simp only [List.cons_append, splitLines, if_neg hc, List.append_eq, ih]
      cases ht : splitLines t with
      | nil => exact absurd ht (splitLines_ne_nil t)
      | cons m ms => simp

theorem validate_default_build (x : Str) :
    validate_mermaid (str "flowchart TD\n"
      ++ (joinLines (([str "Start", x, str "Process", str "End"]).enum.map
            (fun p => fallback_node_line p.1 p.2))
        ++ '\n' :: joinLines (([str "Start", x, str "Process", str "End"]).enum.filterMap
            (fun p => if 0 < p.1 then some (fallback_conn_line p.1) else none)))) = true := by
  have hnodes : ([str "Start", x, str "Process", str "End"]).enum.map
      (fun p => fallback_node_line p.1 p.2)
      = [fallback_node_line 0 (str "Start"), fallback_node_line 1 x,
         fallback_node_line 2 (str "Process"), fallback_node_line 3 (str "End")] := rfl
  have hconns : ([str "Start", x, str "Process", str "End"]).enum.filterMap
      (fun p => if 0 < p.1 then some (fallback_conn_line p.1) else none)
      = [fallback_conn_line 1, fallback_conn_line 2, fallback_conn_line 3] := rfl
  rw [hnodes, hconns]
  set nodes : List Str := [fallback_node_line 0 (str "Start"), fallback_node_line 1 x,
    fallback_node_line 2 (str "Process"), fallback_node_line 3 (str "End")] with hnodesd
  set conns : List Str := [fallback_conn_line 1, fallback_conn_line 2,
    fallback_conn_line 3] with hconnsd
  set R : Str := joinLines nodes ++ '\n' :: joinLines conns with hR
  have hn0 : fallback_node_line 0 (str "Start") ∈ nodes := List.mem_cons_self _ _
  have hbr0 : '[' ∈ fallback_node_line 0 (str "Start") := by decide
  have hbrR : '[' ∈ R := List.mem_append_left _ (mem_joinLines_of_mem hn0 hbr0)
  have hA : (str "flowchart TD\n" ++ R).isEmpty = false := rfl
  have hstripc : stripWs (str "flowchart TD\n" ++ R)
      = str "flowchart TD\n" ++ rstripWs R := by
    rw [stripWs, lstripWs_append_of_not_ws _ (by decide) (by decide),
      rstripWs_append _ _ (rstripWs_ne_nil_of_mem hbrR (by decide))]
  have hs10 : ¬((stripWs (str "flowchart TD\n" ++ R)).length < 10) := by
    rw [hstripc, List.length_append, show (str "flowchart TD\n").length = 13 from rfl]
    omega
  have hfw : startsW (stripWs (str "flowchart TD\n" ++ R)) (str "flowchart") = true := by
    rw [hstripc]
    rfl
  have harrow : containsStr (str "flowchart TD\n" ++ R) (str "-->") = true := by
    rw [containsStr_iff]
    have h1 : str "-->" <:+: joinLines conns := by decide
    have h2 : str "-->" <:+: R :=
      (h1.trans (List.infix_cons (List.infix_refl _))).trans
        (List.suffix_append _ _).isInfix
    exact h2.trans (List.suffix_append _ _).isInfix
  have hsplit : splitLines (str "flowchart TD\n" ++ R)
      = str "flowchart TD" :: (splitLines (joinLines nodes) ++ conns) := by
    have h1 : str "flowchart TD\n" ++ R = str "flowchart TD" ++ '\n' :: R := rfl
    rw [h1, splitLines_append_cons, hR, splitLines_append_cons]
    rw [show splitLines (str "flowchart TD") = [str "flowchart TD"] from rfl]
    rw [show splitLines (joinLines conns) = conns from rfl]
    rfl
  set M : List Str := splitLines (joinLines nodes) with hM
  have hfilter : (splitLines (str "flowchart TD\n" ++ R)).filter
      (fun l => !(stripWs l).isEmpty && !startsW (stripWs l) (str "%%"))
      = str "flowchart TD" :: (M.filter
          (fun l => !(stripWs l).isEmpty && !startsW (stripWs l) (str "%%")) ++ conns) := by
    rw [hsplit, List.filter_cons_of_pos (by decide), List.filter_append]
    rw [show conns.filter
      (fun l => !(stripWs l).isEmpty && !startsW (stripWs l) (str "%%")) = conns from by decide]
  have hL3 : ¬(((splitLines (str "flowchart TD\n" ++ R)).filter
      (fun l => !(stripWs l).isEmpty && !startsW (stripWs l) (str "%%"))).length < 3) := by
    rw [hfilter, List.length_cons, List.length_append,
      show conns.length = 3 from rfl]
    omega
  have hcount : ¬(((splitLines (str "flowchart TD\n" ++ R)).filter
      (fun l => !(stripWs l).isEmpty && !startsW (stripWs l) (str "%%"))).countP
      (fun l => containsStr l (str "-->")
        || (l.contains '[' && l.contains ']')
        || (l.contains '{' && l.contains '}')) < 2) := by
    rw [hfilter, List.countP_cons, List.countP_append,
      show conns.countP (fun l => containsStr l (str "-->")
        || (l.contains '[' && l.contains ']')
        || (l.contains '{' && l.contains '}')) = 3 from by decide]
    omega
  rw [validate_mermaid]
  simp only [hA, Bool.false_eq_true, if_false, if_neg hs10, hfw, Bool.not_true,
    harrow, if_neg hL3, if_neg hcount]

/-- C1 (amended): the fallback diagram passes the heuristic validator for
every description whose generic step extraction yields zero or at least two
usable steps; with exactly one usable step the generated diagram has no edge
arrow and fails the validator. -/
theorem c1_fallback_meets_validator_amended (d : Str)
    (hn : (fallback_steps d).length ≠ 1) :
    validate_mermaid (generate_fallback_flowchart d) = true := by
  simp only [generate_fallback_flowchart]
  by_cases h1 : (containsStr (toLowerStr d) (str "notification")
      && (containsStr (toLowerStr d) (str "discord")
        || containsStr (toLowerStr d) (str "mobile")
        || containsStr (toLowerStr d) (str "app"))) = true
  · rw [if_pos h1]
    exact validate_notification
  · rw [if_neg h1]
    by_cases h2 : (containsStr (toLowerStr d) (str "login")
        || containsStr (toLowerStr d) (str "auth")) = true
    · rw [if_pos h2]
      exact validate_login
    · rw [if_neg h2]
      by_cases h0 : (fallback_steps d).isEmpty = true
      · have hfe : fallback_steps d = [] := List.isEmpty_iff.mp h0
        rw [hfe]
        rw [show (([] : List Str).isEmpty) = true from rfl, if_pos rfl]
        rw [show List.take 8 [str "Start", d.take 40, str "Process", str "End"]
          = [str "Start", d.take 40, str "Process", str "End"] from rfl]
        rw [List.append_assoc]
        exact validate_default_build (d.take 40)
      · rcases hsteps : fallback_steps d with _ | ⟨a, t1⟩
        · rw [hsteps] at h0
          exact absurd rfl h0
        rcases t1 with _ | ⟨b, t2⟩
        · rw [hsteps] at hn
          simp at hn
        rw [show ((a :: b :: t2).isEmpty) = false from rfl]
        rw [if_neg (by simp)]
        rw [show (a :: b :: t2).take 8 = a :: b :: t2.take 6 from rfl]
        rw [List.append_assoc]
        refine validate_generic_build a b (t2.take 6) ?_
        intro st hst
        have hmem : st ∈ fallback_steps d := by
          rw [hsteps]
          rcases List.mem_cons.mp hst with h | hst
          · exact h ▸ List.mem_cons_self _ _
          rcases List.mem_cons.mp hst with h | hst
          · exact h ▸ List.mem_cons_of_mem _ (List.mem_cons_self _ _)
          · exact List.mem_cons_of_mem _ (List.mem_cons_of_mem _
              (List.take_subset _ _ hst))
        exact fallback_steps_no_nl hmem

/-- Claim C1 (counterexample): a description yielding exactly one usable step
produces a non-empty single-node diagram with no `-->` edge, which fails the
heuristic validator — the fallback does not always meet the thresholds. -/
theorem c1_one_step_fallback_fails_validator :
    fallback_steps (str "hello") = [str "hello"]
    ∧ generate_fallback_flowchart (str "hello") ≠ []
    ∧ validate_mermaid (generate_fallback_flowchart (str "hello")) = false := by
  decide

theorem c1_fallback_meets_validator_amended_witness :
    (fallback_steps (str "#a\n#b")).length ≠ 1
    ∧ validate_mermaid (generate_fallback_flowchart (str "#a\n#b")) = true :=
  ⟨by decide,
    c1_fallback_meets_validator_amended (str "#a\n#b") (by decide)⟩

theorem mem_insert_by_key_len {x p : Str × Str} {l : List (Str × Str)}
    (h : x ∈ insert_by_key_len p l) : x = p ∨ x ∈ l := by
  induction l with
  | nil =>
    rw [insert_by_key_len] at h
    rcases List.mem_cons.mp h with h | h
    · exact Or.inl h
    · simp at h
  | cons q t ih =>
    rw [insert_by_key_len] at h
    split at h
    · rcases List.mem_cons.mp h with h | h
      · exact Or.inr (h ▸ List.mem_cons_self _ _)
      · rcases ih h with h | h
        · exact Or.inl h
        · exact Or.inr (List.mem_cons_of_mem _ h)
    · rcases List.mem_cons.mp h with h | h
      · exact Or.inl h
      · exact Or.inr h

theorem pairwise_insert_by_key_len {p : Str × Str} {l : List (Str × Str)}
    (h : List.Pairwise (fun x y => y.1.length ≤ x.1.length) l) :
    List.Pairwise (fun x y => y.1.length ≤ x.1.length) (insert_by_key_len p l) := by
  induction l with
  | nil => simp [insert_by_key_len]
  | cons q t ih =>
    rw [insert_by_key_len]
    rcases List.pairwise_cons.mp h with ⟨hq, ht⟩
    split
    · rename_i hgt
      refine List.pairwise_cons.mpr ⟨?_, ih ht⟩
      intro x hx
      rcases mem_insert_by_key_len hx with hx | hx
      · subst hx
        omega
      · exact hq x hx
    · rename_i hle
      refine List.pairwise_cons.mpr ⟨?_, h⟩
      intro x hx
      rcases List.mem_cons.mp hx with hx | hx
      · subst hx
        omega
      · exact (hq x hx).trans (by omega)

theorem sort_by_key_len_sorted (ms : List (Str × Str)) :
    List.Pairwise (fun x y => y.1.length ≤ x.1.length) (sort_by_key_len ms) := by
  induction ms with
  | nil => simp [sort_by_key_len]
  | cons m t ih =>
    rw [sort_by_key_len, List.foldr_cons]
    exact pairwise_insert_by_key_len ih

theorem first_def_keeps_id (st : EndNodesState) (line id label : Str)
    (h1 : ((stripWs line).isEmpty || startsW (stripWs line) (str "flowchart")) = false)
    (h2 : end_match (stripWs line) = some (id, label))
    (h3 : assoc_find st.counter id = none)
    (h4 : (stripWs line).contains '[' = true) :
    normalize_end_nodes_line st line =
      { counter := st.counter ++ [(id, 0)], mapping := st.mapping,
        out := st.out ++ [str "    " ++ id ++ '[' :: (normalize_end_label label ++ [']'])] } := by
  unfold normalize_end_nodes_line
  simp only [h1, h2, h3, h4, Bool.false_eq_true, if_false, if_true]

theorem later_def_suffixed (st : EndNodesState) (line id label : Str) (n : Nat)
    (h1 : ((stripWs line).isEmpty || startsW (stripWs line) (str "flowchart")) = false)
    (h2 : end_match (stripWs line) = some (id, label))
    (h3 : assoc_find st.counter id = some n)
    (h4 : (stripWs line).contains '[' = true) :
    normalize_end_nodes_line st line =
      { counter := assoc_set_nat st.counter id (n + 1),
        mapping := assoc_set_str st.mapping id (id ++ '_' :: nat_str (n + 1)),
        out := st.out ++ [str "    " ++ (id ++ '_' :: nat_str (n + 1))
          ++ '[' :: (normalize_end_label label ++ [']'])] } := by
  unfold normalize_end_nodes_line
  simp only [h1, h2, h3, h4, Bool.false_eq_true, if_false, if_true]

theorem edge_line_remapped (st : EndNodesState) (line : Str)
    (h1 : ((stripWs line).isEmpty || startsW (stripWs line) (str "flowchart")) = false)
    (h2 : end_match (stripWs line) = none)
    (h5 : containsStr line (str "-->") = true) :
    normalize_end_nodes_line st line =
      { st with out := st.out ++ [apply_mappings (sort_by_key_len st.mapping) line] } := by
  unfold normalize_end_nodes_line
  simp only [h1, h2, h5, Bool.false_eq_true, if_false, if_true]

/-- Claim C4 (counterexample): after `End` is remapped to `End_1`, the edge
reference `B --> End[other]` keeps the old identifier — the edge-rewrite
pattern only fires when the reference is followed by an arrow, a pipe, the
end of the line, or a closing bracket, never an opening one. -/
theorem c4_bracketed_edge_reference_kept :
    normalize_end_nodes (str "flowchart TD\n    End[End one]\n    End[End two]\n    A --> End\n    B --> End[other]")
      = str "flowchart TD\n    End[End: one]\n    End_1[End: two]\n    A --> End_1\n    B --> End[other]" := by
  decide

/-- C4 (amended): during end-node normalization the first definition of a
base identifier keeps its identifier (counter entry 0, no remapping); a later
definition with counter value `n` is reassigned `id_(n+1)` and the remapping
is recorded; an edge line is rewritten by applying the remappings sorted
longest-identifier-first (the sort is, pairwise, by decreasing key length);
and a reference is rewritten only when followed by optional whitespace and an
arrow, a pipe, the end of the line, or a closer — a reference followed by an
opening bracket is left unchanged, and a longer identifier such as `End2` is
not corrupted while `End` is remapped. -/
theorem c4_end_node_uniquify_amended :
    (∀ (st : EndNodesState) (line id label : Str),
      ((stripWs line).isEmpty || startsW (stripWs line) (str "flowchart")) = false →
      end_match (stripWs line) = some (id, label) →
      assoc_find st.counter id = none →
      (stripWs line).contains '[' = true →
      normalize_end_nodes_line st line =
        { counter := st.counter ++ [(id, 0)], mapping := st.mapping,
          out := st.out ++ [str "    " ++ id
            ++ '[' :: (normalize_end_label label ++ [']'])] })
    ∧ (∀ (st : EndNodesState) (line id label : Str) (n : Nat),
      ((stripWs line).isEmpty || startsW (stripWs line) (str "flowchart")) = false →
      end_match (stripWs line) = some (id, label) →
      assoc_find st.counter id = some n →
      (stripWs line).contains '[' = true →
      normalize_end_nodes_line st line =
        { counter := assoc_set_nat st.counter id (n + 1),
          mapping := assoc_set_str st.mapping id (id ++ '_' :: nat_str (n + 1)),
          out := st.out ++ [str "    " ++ (id ++ '_' :: nat_str (n + 1))
            ++ '[' :: (normalize_end_label label ++ [']'])] })
    ∧ (∀ (st : EndNodesState) (line : Str),
      ((stripWs line).isEmpty || startsW (stripWs line) (str "flowchart")) = false →
      end_match (stripWs line) = none →
      containsStr line (str "-->") = true →
      normalize_end_nodes_line st line =
        { st with out := st.out ++ [apply_mappings (sort_by_key_len st.mapping) line] })
    ∧ (∀ ms : List (Str × Str),
      List.Pairwise (fun x y => y.1.length ≤ x.1.length) (sort_by_key_len ms))
    ∧ apply_mappings (sort_by_key_len [(str "End", str "End_1")])
        (str "    A --> End") = str "    A --> End_1"
    ∧ apply_mappings (sort_by_key_len [(str "End", str "End_1")])
        (str "    A -->|go| End") = str "    A -->|go| End_1"
    ∧ apply_mappings (sort_by_key_len [(str "End", str "End_1"), (str "End2", str "End2_9")])
        (str "    A --> End2") = str "    A --> End2_9"
    ∧ apply_mappings (sort_by_key_len [(str "End", str "End_1")])
        (str "    B --> End[x]") = str "    B --> End[x]" :=
  ⟨first_def_keeps_id, later_def_suffixed, edge_line_remapped,
    sort_by_key_len_sorted, by decide, by decide, by decide, by decide⟩

end Flowchart
